import Mathlib

/-!
# Invoice Intake Reconciliation Pipeline — verification of the core script

This development is a shallow embedding of the core pipeline of
`scripts/manual_inbox_to_supabase_recall.py` (class `FleetEmailProcessor`):
the classifier (`validate_email`), the company resolver
(`extract_company_name`, `_find_fuzzy_match`, `_levenshtein_distance`),
the field extractor (`extract_metadata_from_pdf`), attachment selection and
invoice-number parsing, filename synthesis, the upload-with-dedup step
(`upload_to_supabase`), the ledger (`log_to_sheet`, `_is_already_processed`)
and the per-message orchestrator loop (`process_inbox`).

External collaborators (Gmail, Supabase storage, the OpenAI extraction
service, the Google Sheet backing store, PDF utilities) are modelled at their
interface boundary as components of a `World` record: total functions that
the embedded code consults.  Mutating calls to collaborators are recorded in
an explicit `Effect` trace so that frame conditions (what a run does NOT do)
can be stated and proved.

Python strings are modelled as Lean `String`, `str.strip()` as `pyStrip`
(stripping the six ASCII whitespace characters Python strips), `str.lower`
and `str.upper` as the ASCII `String.toLower`/`String.toUpper`, and the
substring test `a in b` as `hasSub`.
-/

/-! ## Python string primitives -/

/-- The characters stripped by Python `str.strip()` (ASCII fragment). -/
def isPySpace (c : Char) : Bool :=
  c = ' ' || c = '\t' || c = '\n' || c = '\r' || c = Char.ofNat 11 || c = Char.ofNat 12

/-- Python `str.strip()` on a character list. -/
def pyStripList (l : List Char) : List Char :=
  ((l.dropWhile isPySpace).reverse.dropWhile isPySpace).reverse

/-- Python `str.strip()`. -/
def pyStrip (s : String) : String :=
  String.mk (pyStripList s.toList)

/-- Python `s[:-1]`: drop the final character (empty string maps to itself). -/
def dropLastChar (s : String) : String :=
  String.mk s.toList.dropLast

/-- Python `str.lower()` (ASCII fragment). -/
def pyLower (s : String) : String := String.mk (s.toList.map Char.toLower)

/-- Python `str.upper()` (ASCII fragment). -/
def pyUpper (s : String) : String := String.mk (s.toList.map Char.toUpper)

/-- The function `startsL n l`: list `n` heads list `l`. -/
def startsL : List Char → List Char → Bool
  | [], _ => true
  | _ :: _, [] => false
  | a :: as, b :: bs => a = b && startsL as bs

/-- The function `listSub n l`: list `n` occurs contiguously inside list `l`. -/
def listSub (needle : List Char) : List Char → Bool
  | [] => startsL needle []
  | b :: bs => startsL needle (b :: bs) || listSub needle bs

/-- Python `needle in haystack` on strings. -/
def hasSub (needle haystack : String) : Bool :=
  listSub needle.toList haystack.toList

/-- Python `s[-n:]` for `n ≤ len(s)`: the last `n` characters. -/
def strTakeRight (n : Nat) (s : String) : String :=
  String.mk (s.toList.drop (s.toList.length - n))

/-- Python `s.startswith(pre)`. -/
def pyStartsWith (s pre : String) : Bool := startsL pre.toList s.toList

/-- Python `s.endswith(suf)`. -/
def pyEndsWith (s suf : String) : Bool :=
  startsL suf.toList.reverse s.toList.reverse

/-- Python `s[:n]`. -/
def pyTake (s : String) (n : Nat) : String := String.mk (s.toList.take n)

/-- Python `s.replace(pat, repl)` on lists, with the list length as
structural fuel (each step consumes at least one character, so the fuel
never runs out for a nonempty pattern). -/
def listReplaceAux (pat repl : List Char) : Nat → List Char → List Char
  | 0, l => l
  | _ + 1, [] => []
  | fuel + 1, c :: cs =>
      if startsL pat (c :: cs) then
        repl ++ listReplaceAux pat repl fuel ((c :: cs).drop pat.length)
      else c :: listReplaceAux pat repl fuel cs

/-- Python `s.replace(pat, repl)` for a nonempty pattern. -/
def pyReplace (s pat repl : String) : String :=
  if pat.toList.isEmpty then s
  else String.mk (listReplaceAux pat.toList repl.toList s.toList.length s.toList)

/-- Python split on newline, first element: the characters before the
first newline. -/
def firstLineOf (s : String) : String :=
  String.mk (s.toList.takeWhile (fun c => c ≠ '\n'))

/-! ## Levenshtein distance

`levSpec` is the specification-side edit distance, written directly from the
spec text: unit-cost insertion, deletion and substitution.  The code-side
`levenshtein_distance` is the dynamic program of `_levenshtein_distance` in
the script (row-based, with the initial argument swap making the first
argument the longer one).  The two are proved equal. -/

/-- Unit-cost edit distance (insertion/deletion/substitution), the
specification-side definition. -/
def levSpec : List Char → List Char → Nat
  | [], ys => ys.length
  | _ :: xs, [] => xs.length + 1
  | x :: xs, y :: ys =>
      min (levSpec xs (y :: ys) + 1)
        (min (levSpec (x :: xs) ys + 1)
          (levSpec xs ys + (if x = y then 0 else 1)))
termination_by xs ys => xs.length + ys.length
decreasing_by all_goals (simp only [List.length_cons]; omega)

/-- Edit distance between two strings, specification side. -/
def levStr (a b : String) : Nat := levSpec a.toList b.toList

/-! ### The dynamic program of `_levenshtein_distance` -/

/-- One inner loop of `_levenshtein_distance`: given the character `c1` of
the outer loop, the last value `d` already placed in `current_row`, the
remaining suffix of `previous_row` and the remaining characters of `s2`,
produce the remaining cells of `current_row`.  Each cell is
`min(previous_row[j+1] + 1, current_row[j] + 1, previous_row[j] + cost)`. -/
def dpNext (c1 : Char) : Nat → List Nat → List Char → List Nat
  | d, p0 :: p1 :: ps, y :: ys =>
      let cell := min (p1 + 1) (min (d + 1) (p0 + (if c1 = y then 0 else 1)))
      cell :: dpNext c1 cell (p1 :: ps) ys
  | _, _, _ => []

/-- The outer loop of `_levenshtein_distance`: fold the rows over the
characters of `s1`, starting each `current_row` with `i + 1`. -/
def dpRows (s2 : List Char) : List Char → Nat → List Nat → List Nat
  | [], _, prev => prev
  | c :: cs, i, prev => dpRows s2 cs (i + 1) ((i + 1) :: dpNext c (i + 1) prev s2)

/-- The function `_levenshtein_distance` after the initial swap: the zero-length
short-circuit and the row dynamic program, returning `previous_row[-1]`. -/
def levCore (s1 s2 : List Char) : Nat :=
  if s2.length = 0 then s1.length
  else (dpRows s2 s1 0 (List.range (s2.length + 1))).getLastD 0

/-- The function `_levenshtein_distance(s1, s2)` from the script: swap so the first
argument is at least as long, then run the row dynamic program. -/
def levenshtein_distance (s1 s2 : String) : Nat :=
  if s1.toList.length < s2.toList.length then levCore s2.toList s1.toList
  else levCore s1.toList s2.toList

/-- The ideal row segment of the dynamic program: the distances from a fixed
processed prefix `A` of `s1` to the growing prefixes `B`, `B ++ [y1]`, … of
`s2`. -/
def rowSeg (A : List Char) (B : List Char) : List Char → List Nat
  | [] => [levSpec A B]
  | y :: ys => levSpec A B :: rowSeg A (B ++ [y]) ys

/-! ## Fuzzy matching (`_find_fuzzy_match`) -/

/-- The loop of `_find_fuzzy_match`: scan the reference keys keeping
`(best_match, best_distance)`; a key is accepted only when its distance is
within `max_distance` AND strictly below the current best. -/
def find_fuzzy_match_go (input : String) (maxD : Nat) :
    List String → Option String × Nat → Option String × Nat
  | [], acc => acc
  | v :: vs, (best, bestD) =>
      let d := levenshtein_distance input v
      if d ≤ maxD ∧ d < bestD then find_fuzzy_match_go input maxD vs (some v, d)
      else find_fuzzy_match_go input maxD vs (best, bestD)

/-- The function `_find_fuzzy_match(input_name, max_distance)` from the script.  The
reference set is the iteration order of `valid_companies`, modelled as a
list. -/
def find_fuzzy_match (input : String) (maxD : Nat) (companies : List String) :
    Option String :=
  (find_fuzzy_match_go input maxD companies (none, maxD + 1)).1

/-! ## Message data model

A `Message` is the view of one Gmail message the script consumes: identifier,
thread identifier, label ids, headers, and the payload with its (at most one
level of nested) MIME parts.  Body data is modelled as the already
base64-decoded text; absence of the `data`/`attachmentId`/`parts` keys is an
`Option`/empty default. -/

structure Header where
  name : String
  value : String
deriving DecidableEq

inductive MPart where
  | mk : String → String → Option String → Option String → List MPart → MPart

/-- The `filename` of a MIME part (empty default when the key is absent). -/
def MPart.filename : MPart → String
  | .mk f _ _ _ _ => f

/-- The `mimeType` of a MIME part. -/
def MPart.mimeType : MPart → String
  | .mk _ m _ _ _ => m

/-- The decoded `body.data` of a MIME part, when present. -/
def MPart.bodyData : MPart → Option String
  | .mk _ _ b _ _ => b

/-- The `body.attachmentId` of a MIME part, when present. -/
def MPart.attachmentId : MPart → Option String
  | .mk _ _ _ a _ => a

/-- The nested `parts` of a MIME part (empty when the key is absent). -/
def MPart.subparts : MPart → List MPart
  | .mk _ _ _ _ ps => ps

structure Payload where
  headers : List Header
  mimeType : String
  bodyData : Option String
  parts : Option (List MPart)

structure Message where
  id : String
  threadId : String
  labelIds : List String
  payload : Payload

/-- The value of the first header whose name matches, with default `dflt`
(the generator-with-default idiom the script uses for headers). -/
def headerValueD (headers : List Header) (name dflt : String) : String :=
  ((headers.find? (fun h => h.name = name)).map Header.value).getD dflt

/-- The function `_get_email_body(message, body_type)`: the first part whose MIME type is
`text/<body_type>` and which carries data; with no parts list, the payload
body itself when its MIME type matches. -/
def get_email_body (m : Message) (bodyType : String) : Option String :=
  match m.payload.parts with
  | some parts =>
      (parts.find? (fun p => p.mimeType = "text/" ++ bodyType && p.bodyData.isSome)).bind
        MPart.bodyData
  | none =>
      if m.payload.mimeType = "text/" ++ bodyType then m.payload.bodyData else none

/-! ## Company name extraction (`extract_company_name`) -/

/-- The plain-text candidate: first line of the body, stripped; a trailing
comma is removed and the remainder stripped again. -/
def firstLineCompany (text : String) : String :=
  let first_line := pyStrip (firstLineOf text)
  if pyEndsWith first_line "," then pyStrip (dropLastChar first_line) else first_line

/-- The tag-removal substitution of the script: remove every maximal
angle-bracket chunk; an opening bracket with no later closing bracket
starts no match (and then no later character can either, since a match
needs a closing bracket). -/
def removeTagsAux : Nat → List Char → List Char
  | 0, l => l
  | _ + 1, [] => []
  | fuel + 1, c :: cs =>
      if c = '<' then
        match cs.dropWhile (fun x => x ≠ '>') with
        | _ :: r => removeTagsAux fuel r
        | [] => c :: cs
      else c :: removeTagsAux fuel cs

def removeTagsL (l : List Char) : List Char :=
  removeTagsAux l.length l

/-- Attempt to match the regex `<span[^>]*>([^<]+)</span>` at the head of
the list and return the capture group. -/
def trySpanCapture (l : List Char) : Option (List Char) :=
  if startsL "<span".toList l then
    let rest := l.drop 5
    match rest.dropWhile (fun x => x ≠ '>') with
    | _ :: r2 =>
        let cap := r2.takeWhile (fun x => x ≠ '<')
        let r3 := r2.dropWhile (fun x => x ≠ '<')
        if cap ≠ [] && startsL "</span>".toList r3 then some cap else none
    | [] => none
  else none

/-- The leftmost match of the span-capture regex of the script, over the
whole HTML body. -/
def spanSearch : List Char → Option (List Char)
  | [] => none
  | c :: cs =>
      match trySpanCapture (c :: cs) with
      | some cap => some cap
      | none => spanSearch cs

/-- The HTML-fallback candidate: the first `<span>` capture, tag-stripped,
entity-unescaped, stripped, with the trailing-comma rule applied.
`removeTagsAux` uses the list length as structural fuel; the fuel never runs
out because each step consumes at least one character. -/
def htmlCompany (html : String) : String :=
  match spanSearch html.toList with
  | some cap =>
      let s := String.mk (removeTagsL cap)
      let s := pyReplace s "&amp;" "&"
      let s := pyReplace s "&nbsp;" " "
      let s := pyStrip s
      if pyEndsWith s "," then pyStrip (dropLastChar s) else s
  | none => ""

/-- The three matching tiers of `extract_company_name` applied to the
normalized candidate key: exact membership, membership with one trailing
hyphen appended, then fuzzy matching with `max_distance=2`. -/
def resolveCompany (companies : List String) (company_formatted : String) :
    Option String :=
  if company_formatted ∈ companies then some company_formatted
  else if company_formatted ++ "-" ∈ companies then some (company_formatted ++ "-")
  else find_fuzzy_match company_formatted 2 companies

/-- The function `extract_company_name(message)`: candidate from the plain-text body (or
the HTML fallback), normalized by lowercasing and space-to-hyphen
replacement, then resolved against the reference set. -/
def extract_company_name (companies : List String) (m : Message) : Option String :=
  let plain := (get_email_body m "plain").getD ""
  let company_name := if plain ≠ "" then firstLineCompany plain else ""
  let company_name :=
    if company_name = "" then
      match get_email_body m "html" with
      | some htmlText => if htmlText ≠ "" then htmlCompany htmlText else ""
      | none => ""
    else company_name
  if company_name ≠ "" then
    resolveCompany companies (pyReplace (pyLower company_name) " " "-")
  else none

/-! ## Classifier (`validate_email`) -/

inductive VAction where
  | moveToOriginal
  | moveToOther
  | skip
  | process
deriving DecidableEq

structure Validation where
  should_process : Bool
  action : VAction
  reason : String
  currentLabels : List String
deriving DecidableEq

/-- Whether a filename names an invoice PDF: the lowered filename starts
with the invoice token and ends with the PDF extension. -/
def isInvoicePdfName (fn : String) : Bool :=
  pyStartsWith (pyLower fn) "invoice" && pyEndsWith (pyLower fn) ".pdf"

/-- The attachment scan of `validate_email`: direct parts and one level of
nested parts. -/
def hasInvoiceAttachment (parts : List MPart) : Bool :=
  parts.any (fun p =>
    isInvoicePdfName p.filename ||
      p.subparts.any (fun sp => isInvoicePdfName sp.filename))

/-- The function `validate_email(message)`: the per-message classification state machine.
The predicates run in source order, first hit wins. -/
def validate_email (m : Message) : Validation :=
  let subject := headerValueD m.payload.headers "Subject" ""
  if pyStartsWith subject "Re:" || pyStartsWith subject "RE:" then
    ⟨false, .moveToOriginal, "Reply email", m.labelIds⟩
  else if !(hasSub "Invoice" subject && hasSub "Fleet Advisor" subject) then
    ⟨false, .moveToOther, "Not an invoice email - wrong subject format", []⟩
  else if m.threadId ≠ m.id then
    ⟨false, .skip, "Not first message in thread", []⟩
  else if !(hasSub "@gofleetadvisor.com" (headerValueD m.payload.headers "From" "")) then
    ⟨false, .skip, "Sender not @gofleetadvisor.com", []⟩
  else if !(hasInvoiceAttachment (m.payload.parts.getD [])) then
    ⟨false, .skip, "No invoice PDF attachment found", []⟩
  else
    ⟨true, .process, "", []⟩

/-! ## Collaborator world and effect traces

The collaborators of section 6 of the specification, as one record of total
functions.  `bucketFiles` is the storage bucket content; the listing call
with a `search` term returns the files whose name contains the term. -/

/-- The JSON object returned by the extraction collaborator; `none` fields
model absent or null keys. -/
structure NlpJson where
  unit : Option String
  vin : Option String
  plate : Option String
deriving DecidableEq

structure World where
  companies : List String
  sortedLabelId : Option String
  otherLabelId : Option String
  batchLabels : List (String × String)
  getMessage : String → Message
  attachmentData : String → String → String
  bucketFiles : String → List String
  storageUploadOk : String → String → Bool
  nlp : String → Option NlpJson
  mergePdfs : List String → String
  parseDate : String → Option String
  todayStr : String
  timestamp : String
  modifyOk : String → Bool
  errText : String

/-- Observable collaborator calls that mutate, or attempt to mutate, the
outside world, plus full-message fetches. -/
inductive Effect where
  | fetchMessage (msgId : String)
  | listSearch (bucket fname : String)
  | storageWrite (bucket fname : String)
  | labelModify (msgId : String) (add remove : List String)
  | ledgerWrite (msgId : String) (row : List String)
deriving DecidableEq

/-- The message identifier an effect is keyed by, when it has one. -/
def effTag : Effect → Option String
  | .fetchMessage i => some i
  | .labelModify i _ _ => some i
  | .ledgerWrite i _ => some i
  | .listSearch _ _ => none
  | .storageWrite _ _ => none

/-- The storage listing call of the script, with a search term: the files
whose name contains the term. -/
def storage_list (w : World) (bucket term : String) : List String :=
  (w.bucketFiles bucket).filter (fun n => hasSub term n)

/-! ## Field extraction (`extract_metadata_from_pdf`) -/

structure Meta where
  unit : String
  vin : String
  plate : String
deriving DecidableEq

/-- A JSON field lookup with sentinel default: absent or falsy values
become the sentinel. -/
def jsonField (v : Option String) : String :=
  match v with
  | none => "NA"
  | some s => if s = "" then "NA" else s

/-- Field normalization: the sentinel-defaulted value, upper-cased, with
spaces removed, then trimmed. -/
def normField (v : Option String) : String :=
  pyStrip (pyReplace (pyUpper (jsonField v)) " " "")

/-- The function `extract_metadata_from_pdf(pdf_data)`: the collaborator round trip is
`World.nlp`; `none` models every failure inside the `try` block (PDF text
extraction, the API call, JSON parsing).  On success the three fields are
normalized and the unit is backfilled from the last 8 characters of the VIN
when the unit is missing and the VIN is usable. -/
def extract_metadata_from_pdf (w : World) (pdf_data : String) : Meta :=
  match w.nlp pdf_data with
  | none => ⟨"NA", "NA", "NA"⟩
  | some j =>
      let unit := normField j.unit
      let vin := normField j.vin
      let plate := normField j.plate
      let unit :=
        if (unit = "NA" ∨ unit = "") ∧ vin ≠ "NA" ∧ 8 ≤ vin.length then
          strTakeRight 8 vin
        else unit
      ⟨unit, vin, plate⟩

/-! ## Attachments, invoice number, date -/

structure Att where
  filename : String
  data : String
deriving DecidableEq

/-- The function `get_attachments(message)`: every PDF part carrying an attachment id,
from the direct parts and one level of nested parts, with its bytes fetched
from the mailbox collaborator. -/
def get_attachments (w : World) (m : Message) : List Att :=
  (((m.payload.parts.getD []).flatMap (fun p => p :: p.subparts)).filter
      (fun p => pyEndsWith (pyLower p.filename) ".pdf" && p.attachmentId.isSome)).map
    (fun p => ⟨p.filename, w.attachmentData m.id ((p.attachmentId).getD "")⟩)

/-- Separator characters of the regex class `[-_\s]` (ASCII fragment). -/
def isSepChar (c : Char) : Bool :=
  c = '-' || c = '_' || isPySpace c

/-- The invoice-number regex of the script: leftmost occurrence of the
token `invoice` followed by separators and at least one digit; the greedy
separator run is exact because a separator is never a digit. -/
def scanInvoiceNum : List Char → Option (List Char)
  | [] => none
  | c :: cs =>
      if startsL "invoice".toList (c :: cs) then
        let digits := (((c :: cs).drop 7).dropWhile isSepChar).takeWhile Char.isDigit
        if digits.isEmpty then scanInvoiceNum cs else some digits
      else scanInvoiceNum cs

/-- The function `extract_invoice_number(attachments)`: first attachment whose lowered
filename starts with `invoice` and contains digits after the token; `"NA"`
when none does. -/
def extract_invoice_number : List Att → String
  | [] => "NA"
  | a :: rest =>
      let fn := pyLower a.filename
      if pyStartsWith fn "invoice" then
        match scanInvoiceNum fn.toList with
        | some ds => String.mk ds
        | none => extract_invoice_number rest
      else extract_invoice_number rest

/-- The attachment partition of `process_single_email`: the LAST attachment
whose lowered name starts with `invoice` (each hit overwrites), and every
other PDF in order. -/
def selectAtts (attachments : List Att) : Option Att × List Att :=
  attachments.foldl
    (fun acc att =>
      let fl := pyLower att.filename
      if pyStartsWith fl "invoice" then (some att, acc.2)
      else if pyEndsWith fl ".pdf" then (acc.1, acc.2 ++ [att])
      else acc)
    (none, [])

/-- The function `get_email_date(message)`: parse the `Date` header through the date
collaborator into `MMDDYYYY`, falling back to the current date. -/
def get_email_date (w : World) (m : Message) : String :=
  let date_str := headerValueD m.payload.headers "Date" ""
  if date_str ≠ "" then
    match w.parseDate date_str with
    | some s => s
    | none => w.todayStr
  else w.todayStr

/-! ## Storage upload with dedup (`upload_to_supabase`) -/

/-- The function `upload_to_supabase(file_data, filename, bucket)`: strip the target
name, list the bucket with the name as search term, report success without
writing when anything is found, otherwise issue the write. -/
def upload_to_supabase (w : World) (file_data filename bucket : String) :
    Bool × List Effect :=
  let filename := pyStrip filename
  let existing := storage_list w bucket filename
  if 0 < existing.length then (true, [Effect.listSearch bucket filename])
  else if w.storageUploadOk bucket filename then
    (true, [Effect.listSearch bucket filename, Effect.storageWrite bucket filename])
  else
    (false, [Effect.listSearch bucket filename, Effect.storageWrite bucket filename])

/-- The success verdict of `upload_to_supabase`, as a function of the world
and the target alone. -/
def uploadOk (w : World) (bucket filename : String) : Bool :=
  let filename := pyStrip filename
  0 < (storage_list w bucket filename).length || w.storageUploadOk bucket filename

/-! ## Mailbox label moves -/

/-- The function `move_to_sorted_label(message_id)`. -/
def move_to_sorted_label (w : World) (message_id : String) : Bool × List Effect :=
  match w.sortedLabelId with
  | none => (false, [])
  | some lid =>
      (w.modifyOk message_id, [Effect.labelModify message_id [lid] ["INBOX"]])

/-- The function `move_to_other_label(message_id)`. -/
def move_to_other_label (w : World) (message_id : String) : Bool × List Effect :=
  match w.otherLabelId with
  | none => (false, [])
  | some lid =>
      (w.modifyOk message_id, [Effect.labelModify message_id [lid] ["INBOX"]])

/-- The function `move_reply_to_original_label(message_id, current_labels)`: with or
without a recognized batch label, the modification only removes `INBOX`. -/
def move_reply_to_original_label (w : World) (message_id : String)
    (current_labels : List String) : Bool × String × List Effect :=
  let batch? := current_labels.find?
    (fun lid => (w.batchLabels.find? (fun p => p.1 = lid)).isSome)
  if w.modifyOk message_id then
    match batch? with
    | some lid =>
        (true, "Kept in " ++ (((w.batchLabels.find? (fun p => p.1 = lid)).map
          (fun p => p.2)).getD ""),
         [Effect.labelModify message_id [] ["INBOX"]])
    | none =>
        (true, "Reply removed from INBOX",
         [Effect.labelModify message_id [] ["INBOX"]])
  else (false, w.errText, [Effect.labelModify message_id [] ["INBOX"]])

/-! ## Ledger (`log_to_sheet`, `_is_already_processed`) -/

structure ProcState where
  sheet_data : List (List String)
  message_id_to_row : List (String × Nat)
  processed_count : Nat
  failed_count : Nat
  skipped_count : Nat
  cleaned_count : Nat
deriving DecidableEq

/-- Lookup in the in-memory `message_id_to_row` index (dictionary
lookup; entries are unique by key in every state the processor builds). -/
def lookupRow : List (String × Nat) → String → Option Nat
  | [], _ => none
  | p :: ps, k => if p.1 = k then some p.2 else lookupRow ps k

/-- The function `log_to_sheet(...)`: build the eight-column row, then either update the
existing sheet row of the message (keeping the local cache in sync) or
append a new row and extend the index. -/
def log_to_sheet (w : World) (st : ProcState)
    (message_id subject company invoice_file dot_file status error : String) :
    ProcState × List Effect :=
  let values : List String :=
    [w.timestamp, message_id, pyTake subject 100, company, invoice_file,
      if dot_file = "" then "N/A" else dot_file, status,
      if error = "" then "" else pyTake error 200]
  match lookupRow st.message_id_to_row message_id with
  | some row_number =>
      ({ st with sheet_data := st.sheet_data.set (row_number - 1) values },
        [Effect.ledgerWrite message_id values])
  | none =>
      let new_row_number := st.sheet_data.length + 1
      ({ st with
          sheet_data := st.sheet_data ++ [values],
          message_id_to_row := st.message_id_to_row ++ [(message_id, new_row_number)] },
        [Effect.ledgerWrite message_id values])

/-- The function `_is_already_processed(message_id)`: the idempotency gate.  True exactly
when the indexed sheet row exists, has at least 7 columns, and its status
column reads `success`. -/
def is_already_processed (st : ProcState) (message_id : String) : Bool :=
  match lookupRow st.message_id_to_row message_id with
  | none => false
  | some row_idx =>
      let row := st.sheet_data.getD (row_idx - 1) []
      if 7 ≤ row.length then decide (row.getD 6 "" = "success") else false

/-! ## Per-message processing (`process_single_email`) -/

/-- The upload stage of `process_single_email` when supporting ("DOT")
attachments exist: upload the invoice and the merged bundle, and only when
both report success move the message to the sorted label and write the
`success` ledger record; otherwise write `failed` and leave the mailbox
untouched. -/
def uploadStageDots (w : World) (st : ProcState)
    (message_id subject company invoice_filename dot_filename : String)
    (invData merged : String) : ProcState × List Effect :=
  let up1 := upload_to_supabase w invData invoice_filename "INVOICE"
  let up2 := upload_to_supabase w merged dot_filename "DOT"
  if up1.1 && up2.1 then
    let mv := move_to_sorted_label w message_id
    let r := log_to_sheet w st message_id subject company invoice_filename
      dot_filename "success" ""
    ({ r.1 with processed_count := r.1.processed_count + 1 },
      up1.2 ++ up2.2 ++ mv.2 ++ r.2)
  else
    let r := log_to_sheet w st message_id subject company invoice_filename
      dot_filename "failed" "Upload failed"
    ({ r.1 with failed_count := r.1.failed_count + 1 }, up1.2 ++ up2.2 ++ r.2)

/-- The upload stage of `process_single_email` with no supporting
attachments: only the invoice upload gates the label move and the `success`
record. -/
def uploadStageNoDots (w : World) (st : ProcState)
    (message_id subject company invoice_filename : String)
    (invData : String) : ProcState × List Effect :=
  let up1 := upload_to_supabase w invData invoice_filename "INVOICE"
  if up1.1 then
    let mv := move_to_sorted_label w message_id
    let r := log_to_sheet w st message_id subject company invoice_filename
      "" "success" ""
    ({ r.1 with processed_count := r.1.processed_count + 1 },
      up1.2 ++ mv.2 ++ r.2)
  else
    let r := log_to_sheet w st message_id subject company invoice_filename
      "" "failed" "Upload failed"
    ({ r.1 with failed_count := r.1.failed_count + 1 }, up1.2 ++ r.2)

/-- The function `process_single_email(message)`: resolve the company, collect and
partition attachments, extract fields, synthesize the canonical filenames,
upload with dedup, and only on full upload success move the message to the
sorted label and write a `success` ledger record; otherwise write `failed`
and leave the mailbox untouched. -/
def process_single_email (w : World) (st : ProcState) (m : Message) :
    ProcState × List Effect :=
  let subject := headerValueD m.payload.headers "Subject" "No Subject"
  let message_id := m.id
  match extract_company_name w.companies m with
  | none =>
      let r := log_to_sheet w st message_id subject "" "" "" "failed"
        "Company name not found or not in Supabase"
      ({ r.1 with failed_count := r.1.failed_count + 1 }, r.2)
  | some company =>
      let attachments := get_attachments w m
      if attachments.isEmpty then
        let r := log_to_sheet w st message_id subject company "" "" "failed"
          "No PDF attachments found"
        ({ r.1 with failed_count := r.1.failed_count + 1 }, r.2)
      else
        let invoice_number := extract_invoice_number attachments
        let sel := selectAtts attachments
        match sel.1 with
        | none =>
            let r := log_to_sheet w st message_id subject company "" "" "failed"
              "No invoice file found"
            ({ r.1 with failed_count := r.1.failed_count + 1 }, r.2)
        | some invoice_attachment =>
            let meta := extract_metadata_from_pdf w invoice_attachment.data
            let email_date := get_email_date w m
            if !sel.2.isEmpty then
              uploadStageDots w st message_id subject company
                (pyStrip (company ++ "__I-" ++ invoice_number ++ "__U-" ++
                  meta.unit ++ "__V-" ++ meta.vin ++ "__D-" ++ email_date ++
                  "__P-" ++ meta.plate ++ ".pdf"))
                (pyStrip (company ++ "__dot__I-" ++ invoice_number ++ "__U-" ++
                  meta.unit ++ "__V-" ++ meta.vin ++ "__D-" ++ email_date ++
                  "__P-" ++ meta.plate ++ ".pdf"))
                invoice_attachment.data (w.mergePdfs (sel.2.map Att.data))
            else
              uploadStageNoDots w st message_id subject company
                (pyStrip (company ++ "__I-" ++ invoice_number ++ "__U-" ++
                  meta.unit ++ "__V-" ++ meta.vin ++ "__D-" ++ email_date ++
                  "__P-" ++ meta.plate ++ ".pdf"))
                invoice_attachment.data

/-! ## The orchestrator loop (`process_inbox`) -/

/-- One iteration of the `process_inbox` loop for one listed message id: the
ledger gate first (with no collaborator call at all when it fires), then the
full-message fetch, classification, and the action branch. -/
def inboxStep (w : World) (st : ProcState) (msg_id : String) :
    ProcState × List Effect :=
  if is_already_processed st msg_id then
    ({ st with skipped_count := st.skipped_count + 1 }, [])
  else
    let m := w.getMessage msg_id
    let subject := headerValueD m.payload.headers "Subject" "No Subject"
    let v := validate_email m
    match v.action with
    | .moveToOriginal =>
        let mv := move_reply_to_original_label w msg_id v.currentLabels
        let r := log_to_sheet w st msg_id subject "" "" "" "failed"
          ("Reply email - " ++ mv.2.1)
        ({ r.1 with cleaned_count := r.1.cleaned_count + 1 },
          Effect.fetchMessage msg_id :: (mv.2.2 ++ r.2))
    | .moveToOther =>
        let mv := move_to_other_label w msg_id
        let r := log_to_sheet w st msg_id subject "" "" "" "failed" v.reason
        ({ r.1 with cleaned_count := r.1.cleaned_count + 1 },
          Effect.fetchMessage msg_id :: (mv.2 ++ r.2))
    | .skip =>
        ({ st with skipped_count := st.skipped_count + 1 },
          [Effect.fetchMessage msg_id])
    | .process =>
        let r := process_single_email w st m
        (r.1, Effect.fetchMessage msg_id :: r.2)

/-- The function `process_inbox`: the listed inbox message ids folded through
`inboxStep`, concatenating the effect traces. -/
def process_inbox (w : World) (msg_ids : List String) (st : ProcState) :
    ProcState × List Effect :=
  match msg_ids with
  | [] => (st, [])
  | i :: rest =>
      let r1 := inboxStep w st i
      let r2 := process_inbox w rest r1.1
      (r2.1, r1.2 ++ r2.2)

/-! ## Claim C3: reply subjects

The claim says the reply check is case-insensitive.  The script checks only
the two exact spellings `Re:` and `RE:`; a subject starting with `re:` falls
through to the invoice-subject predicate. -/

/-- A concrete message whose subject begins with `re:` (lowercase). -/
def c3Message : Message :=
  { id := "m1"
    threadId := "m1"
    labelIds := ["INBOX"]
    payload :=
      { headers := [⟨"Subject", "re: hello"⟩, ⟨"From", "a@gofleetadvisor.com"⟩]
        mimeType := "text/plain"
        bodyData := some "Acme"
        parts := none } }

/-- A concrete reply-subject message that carries no attachments at all. -/
def c3ReplyMessage : Message :=
  { id := "m2"
    threadId := "t9"
    labelIds := ["INBOX", "L7"]
    payload :=
      { headers := [⟨"Subject", "Re: Invoice 42"⟩]
        mimeType := "text/plain"
        bodyData := none
        parts := none } }

/-- A world whose extraction collaborator always fails, for the C5
witness. -/
def c5FailWorld : World :=
  { companies := []
    sortedLabelId := none
    otherLabelId := none
    batchLabels := []
    getMessage := fun i =>
      ⟨i, i, [], ⟨[], "", none, none⟩⟩
    attachmentData := fun _ _ => ""
    bucketFiles := fun _ => []
    storageUploadOk := fun _ _ => true
    nlp := fun _ => none
    mergePdfs := fun _ => ""
    parseDate := fun _ => none
    todayStr := "01012024"
    timestamp := "t0"
    modifyOk := fun _ => true
    errText := "boom" }

/-- A world whose extraction collaborator answers with a unit-less record,
for the C5 witness. -/
def c5OkWorld : World :=
  { c5FailWorld with
      nlp := fun _ => some ⟨none, some "1HGCM82633A004352", some "XY Z12"⟩ }

/-- A world whose `INVOICE` bucket already holds the target file, for the
C6 witness. -/
def c6World : World :=
  { c5FailWorld with bucketFiles := fun _ => ["inv.pdf"] }

/-- A concrete message whose plain-text body starts with
`Acme    ,` (four spaces before the trailing comma). -/
def c8Message : Message :=
  { id := "m8"
    threadId := "m8"
    labelIds := ["INBOX"]
    payload :=
      { headers := []
        mimeType := "text/plain"
        bodyData := some "Acme    ,\nBody"
        parts := none } }

/-- A world whose fetched message always fails the thread predicate, for
the C9 witness. -/
def c9World : World :=
  { c5FailWorld with
      getMessage := fun i =>
        ⟨i, "otherthread", ["INBOX"],
          ⟨[⟨"Subject", "Invoice 1 from Fleet Advisor"⟩], "", none, none⟩⟩ }

/-- An initial ledger state with one header row, for witnesses. -/
def st0 : ProcState :=
  { sheet_data := [["Timestamp", "Message ID", "Subject", "Company",
      "Invoice File", "DOT File", "Status", "Error"]]
    message_id_to_row := []
    processed_count := 0
    failed_count := 0
    skipped_count := 0
    cleaned_count := 0 }

/-- A world in which uploads always succeed and a sorted label exists, for
the C4 witness. -/
def c4World : World :=
  { c5FailWorld with
      companies := ["acme-co"]
      sortedLabelId := some "SORTED" }

/-- A concrete processable message: plain body naming the company, one
invoice PDF attachment, no supporting attachments. -/
def c4Message : Message :=
  { id := "m4"
    threadId := "m4"
    labelIds := ["INBOX"]
    payload :=
      { headers := [⟨"Subject", "Invoice 7 from Fleet Advisor"⟩]
        mimeType := "multipart/mixed"
        bodyData := none
        parts := some
          [⟨"", "text/plain", some "Acme Co\nsee attached", none, []⟩,
            ⟨"Invoice_7.pdf", "application/pdf", none, some "a1", []⟩] } }

/-- A world producing the specification example fields: company
`acme-corp`, invoice `4521`, unit `U99`, the 17-character VIN, date
`01152024`, plate `NA`. -/
def c7World : World :=
  { c5FailWorld with
      companies := ["acme-corp"]
      sortedLabelId := some "SORTED"
      nlp := fun _ => some ⟨some "U99", some "1HGCM82633A004352", none⟩
      parseDate := fun _ => some "01152024" }

/-- The message for the C7 witness: body naming `Acme Corp`, one invoice
attachment `Invoice_4521.pdf`, no supporting attachments. -/
def c7Message : Message :=
  { id := "m7"
    threadId := "m7"
    labelIds := ["INBOX"]
    payload :=
      { headers := [⟨"Subject", "Invoice 4521 from Fleet Advisor"⟩,
          ⟨"Date", "Mon, 15 Jan 2024 10:00:00 -0700"⟩]
        mimeType := "multipart/mixed"
        bodyData := none
        parts := some
          [⟨"", "text/plain", some "Acme Corp\nsee attached", none, []⟩,
            ⟨"Invoice_4521.pdf", "application/pdf", none, some "a1", []⟩] } }

/-! ## Claim C1: the ledger gate -/

/-- Well-formed processor state: every indexed row number points inside the
sheet (and is at least 1), and no two message ids share a row. -/
def WFState (st : ProcState) : Prop :=
  (∀ k n, lookupRow st.message_id_to_row k = some n →
    1 ≤ n ∧ n - 1 < st.sheet_data.length) ∧
  (∀ k1 k2 n, lookupRow st.message_id_to_row k1 = some n →
    lookupRow st.message_id_to_row k2 = some n → k1 = k2)

/-- A ledger state whose row 2 records message `m1` as `success`, for the
C1 witness. -/
def c1State : ProcState :=
  { sheet_data :=
      [["Timestamp", "Message ID", "Subject", "Company", "Invoice File",
          "DOT File", "Status", "Error"],
        ["t0", "m1", "Invoice 1 from Fleet Advisor", "acme", "a.pdf", "N/A",
          "success", ""]]
    message_id_to_row := [("m1", 2)]
    processed_count := 0
    failed_count := 0
    skipped_count := 0
    cleaned_count := 0 }

/-! ## Theorems

Lemmas about the embedded pipeline, the claim theorems, their
counterexamples and their witnesses. -/

theorem startsL_refl : ∀ l : List Char, startsL l l = true := by
  intro l
  induction l with
  | nil => rfl
  | cons a as ih => simp [startsL, ih]

theorem listSub_refl (l : List Char) : listSub l l = true := by
  cases l with
  | nil => rfl
  | cons b bs => simp [listSub, startsL_refl]

theorem hasSub_refl (s : String) : hasSub s s = true :=
  listSub_refl s.toList

theorem levSpec_nil_left (ys : List Char) : levSpec [] ys = ys.length := by
  cases ys <;> simp [levSpec]

theorem levSpec_nil_right (xs : List Char) : levSpec xs [] = xs.length := by
  cases xs <;> simp [levSpec]

theorem levSpec_cons_cons (x y : Char) (xs ys : List Char) :
    levSpec (x :: xs) (y :: ys) =
      min (levSpec xs (y :: ys) + 1)
        (min (levSpec (x :: xs) ys + 1)
          (levSpec xs ys + (if x = y then 0 else 1))) := by
  simp [levSpec]

theorem levSpec_comm (xs : List Char) : ∀ ys, levSpec xs ys = levSpec ys xs := by
  induction xs with
  | nil => intro ys; rw [levSpec_nil_left, levSpec_nil_right]
  | cons x xs ihx =>
    intro ys
    induction ys with
    | nil => rw [levSpec_nil_left, levSpec_nil_right]
    | cons y ys ihy =>
      rw [levSpec_cons_cons, levSpec_cons_cons, ihx (y :: ys), ihx ys, ihy]
      have hc : (if x = y then 0 else 1) = (if y = x then 0 else 1) := by
        by_cases h : x = y
        · simp [h]
        · rw [if_neg h, if_neg (fun hyx : y = x => h hyx.symm)]
      rw [hc]
      omega

theorem levSpec_snoc_nil (as : List Char) (a : Char) :
    levSpec (as ++ [a]) [] = as.length + 1 := by
  rw [levSpec_nil_right]
  simp

theorem levSpec_nil_snoc (bs : List Char) (b : Char) :
    levSpec [] (bs ++ [b]) = bs.length + 1 := by
  rw [levSpec_nil_left]
  simp

set_option maxHeartbeats 1600000 in
/-- The edit distance also satisfies the recurrence that removes the LAST
character of each argument; this is the recurrence the row-based dynamic
program of the script uses. -/
theorem levSpec_snoc (a b : Char) :
    ∀ (as bs : List Char),
      levSpec (as ++ [a]) (bs ++ [b]) =
        min (levSpec as (bs ++ [b]) + 1)
          (min (levSpec (as ++ [a]) bs + 1)
            (levSpec as bs + (if a = b then 0 else 1))) := by
  intro as
  induction as with
  | nil =>
    intro bs
    induction bs with
    | nil =>
      simp only [List.nil_append]
      rw [levSpec_cons_cons]
    | cons y bs ihb =>
      simp only [List.nil_append, List.cons_append] at ihb ⊢
      rw [levSpec_cons_cons a y [] (bs ++ [b]), ihb,
        levSpec_cons_cons a y [] bs]
      simp only [levSpec_nil_left, List.length_cons, List.length_append,
        List.length_cons, List.length_nil]
      generalize (if a = b then 0 else 1) = cab
      generalize (if a = y then 0 else 1) = cay
      omega
  | cons x as ihx =>
    intro bs
    induction bs with
    | nil =>
      have h1 := ihx []
      simp only [List.nil_append, List.cons_append] at h1 ⊢
      rw [levSpec_cons_cons x b (as ++ [a]) [], h1,
        levSpec_cons_cons x b as []]
      simp only [levSpec_nil_right, List.length_cons, List.length_append,
        List.length_nil]
      generalize (if a = b then 0 else 1) = cab
      generalize (if x = b then 0 else 1) = cxb
      omega
    | cons y bs ihy =>
      have h1 := ihx (y :: bs)
      have h3 := ihx bs
      simp only [List.cons_append] at h1 h3 ihy ⊢
      rw [levSpec_cons_cons x y (as ++ [a]) (bs ++ [b]), h1, ihy, h3,
        levSpec_cons_cons x y as (bs ++ [b]),
        levSpec_cons_cons x y (as ++ [a]) bs,
        levSpec_cons_cons x y as bs]
      generalize (if a = b then 0 else 1) = cab
      generalize (if x = y then 0 else 1) = cxy
      generalize levSpec as (y :: (bs ++ [b])) = A1
      generalize levSpec (x :: as) (bs ++ [b]) = A2
      generalize levSpec as (bs ++ [b]) = A3
      generalize levSpec (as ++ [a]) (y :: bs) = A4
      generalize levSpec (x :: (as ++ [a])) bs = A5
      generalize levSpec (as ++ [a]) bs = A6
      generalize levSpec as (y :: bs) = A7
      generalize levSpec (x :: as) bs = A8
      generalize levSpec as bs = A9
      simp only [← Nat.add_min_add_right]
      apply le_antisymm
      · simp only [le_min_iff, min_le_iff]
        omega
      · simp only [le_min_iff, min_le_iff]
        omega

theorem rowSeg_head (A B : List Char) (ys : List Char) :
    rowSeg A B ys = levSpec A B :: (rowSeg A B ys).tail := by
  cases ys <;> simp [rowSeg]

theorem dpNext_rowSeg (A : List Char) (c : Char) :
    ∀ (ys B : List Char),
      rowSeg (A ++ [c]) B ys =
        levSpec (A ++ [c]) B ::
          dpNext c (levSpec (A ++ [c]) B) (rowSeg A B ys) ys := by
  intro ys
  induction ys with
  | nil =>
    intro B
    simp [rowSeg, dpNext]
  | cons y ys ih =>
    intro B
    rw [rowSeg]
    conv_rhs => rw [rowSeg]
    rw [rowSeg_head A (B ++ [y]) ys, dpNext]
    have hcell :
        min (levSpec A (B ++ [y]) + 1)
          (min (levSpec (A ++ [c]) B + 1)
            (levSpec A B + (if c = y then 0 else 1))) =
          levSpec (A ++ [c]) (B ++ [y]) := (levSpec_snoc c y A B).symm
    simp only [hcell]
    rw [← rowSeg_head A (B ++ [y]) ys, ih (B ++ [y])]

theorem dpRows_rowSeg (s2 : List Char) :
    ∀ (cs A : List Char),
      dpRows s2 cs A.length (rowSeg A [] s2) = rowSeg (A ++ cs) [] s2 := by
  intro cs
  induction cs with
  | nil => intro A; simp [dpRows]
  | cons c cs ih =>
    intro A
    rw [dpRows]
    have hlen : A.length + 1 = levSpec (A ++ [c]) [] := by
      rw [levSpec_nil_right]; simp
    rw [hlen, ← dpNext_rowSeg A c s2 []]
    have hlen2 : levSpec (A ++ [c]) [] = (A ++ [c]).length := levSpec_nil_right _
    rw [hlen2, ih (A ++ [c])]
    simp

theorem rowSeg_nil_left (ys : List Char) :
    ∀ B : List Char, rowSeg [] B ys = List.range' B.length (ys.length + 1) := by
  induction ys with
  | nil => intro B; simp [rowSeg, List.range', levSpec_nil_left]
  | cons y ys ih =>
    intro B
    rw [rowSeg, ih (B ++ [y])]
    simp [List.range', levSpec_nil_left]

theorem rowSeg_getLastD (A : List Char) :
    ∀ (ys B : List Char) (d : Nat),
      (rowSeg A B ys).getLastD d = levSpec A (B ++ ys) := by
  intro ys
  induction ys with
  | nil => intro B d; simp [rowSeg]
  | cons y ys ih =>
    intro B d
    rw [rowSeg, List.getLastD_cons, ih (B ++ [y])]
    simp

theorem levCore_eq_levSpec (s1 s2 : List Char) : levCore s1 s2 = levSpec s1 s2 := by
  unfold levCore
  by_cases h : s2.length = 0
  · rw [if_pos h, List.length_eq_zero.mp h, levSpec_nil_right]
  · rw [if_neg h]
    have h0 : List.range (s2.length + 1) = rowSeg [] [] s2 := by
      rw [rowSeg_nil_left s2 [], List.range_eq_range']
      rfl
    have h1 : (0 : Nat) = ([] : List Char).length := rfl
    rw [h0, h1, dpRows_rowSeg s2 s1 [], rowSeg_getLastD]
    simp

/-- The dynamic program of the script computes exactly the unit-cost edit
distance of the specification. -/
theorem levenshtein_distance_eq_levStr (s1 s2 : String) :
    levenshtein_distance s1 s2 = levStr s1 s2 := by
  unfold levenshtein_distance levStr
  by_cases h : s1.toList.length < s2.toList.length
  · rw [if_pos h, levCore_eq_levSpec, levSpec_comm]
  · rw [if_neg h, levCore_eq_levSpec]

theorem find_fuzzy_match_go_keep (input : String) (maxD : Nat) :
    ∀ (vs : List String) (best : Option String) (bestD : Nat),
      (∀ v ∈ vs, ¬ levenshtein_distance input v < bestD) →
      find_fuzzy_match_go input maxD vs (best, bestD) = (best, bestD) := by
  intro vs
  induction vs with
  | nil => intro best bestD _; rfl
  | cons v vs ih =>
    intro best bestD h
    rw [find_fuzzy_match_go]
    rw [if_neg (fun hc => (h v (by simp)) hc.2)]
    exact ih best bestD (fun x hx => h x (by simp [hx]))

/-- Provenance and minimality of the fuzzy loop: the final distance never
exceeds the initial one and is a lower bound for every in-range key of the
list; the final best is either the initial accumulator or an in-range key of
the list together with its distance. -/
theorem find_fuzzy_match_go_spec (input : String) (maxD : Nat) :
    ∀ (vs : List String) (best : Option String) (bestD : Nat),
      (find_fuzzy_match_go input maxD vs (best, bestD)).2 ≤ bestD ∧
      (∀ v ∈ vs, levenshtein_distance input v ≤ maxD →
        (find_fuzzy_match_go input maxD vs (best, bestD)).2 ≤
          levenshtein_distance input v) ∧
      ((find_fuzzy_match_go input maxD vs (best, bestD)) = (best, bestD) ∨
        ∃ v ∈ vs, (find_fuzzy_match_go input maxD vs (best, bestD)).1 = some v ∧
          (find_fuzzy_match_go input maxD vs (best, bestD)).2 =
            levenshtein_distance input v ∧
          levenshtein_distance input v ≤ maxD) := by
  intro vs
  induction vs with
  | nil =>
    intro best bestD
    refine ⟨le_refl _, ?_, Or.inl rfl⟩
    intro v hv
    simp at hv
  | cons v vs ih =>
    intro best bestD
    rw [find_fuzzy_match_go]
    by_cases hc : levenshtein_distance input v ≤ maxD ∧
        levenshtein_distance input v < bestD
    · rw [if_pos hc]
      obtain ⟨h1, h2, h3⟩ := ih (some v) (levenshtein_distance input v)
      refine ⟨le_trans h1 (le_of_lt hc.2), ?_, ?_⟩
      · intro x hx hxd
        rcases List.mem_cons.mp hx with hx | hx
        · subst hx; exact h1
        · exact h2 x hx hxd
      · rcases h3 with h3 | ⟨x, hx, hfst, hsnd, hrange⟩
        · exact Or.inr ⟨v, by simp, by rw [h3], by rw [h3], hc.1⟩
        · exact Or.inr ⟨x, by simp [hx], hfst, hsnd, hrange⟩
    · rw [if_neg hc]
      obtain ⟨h1, h2, h3⟩ := ih best bestD
      refine ⟨h1, ?_, ?_⟩
      · intro x hx hxd
        rcases List.mem_cons.mp hx with hx | hx
        · subst hx
          have : bestD ≤ levenshtein_distance input x := by
            rcases Nat.lt_or_ge (levenshtein_distance input x) bestD with h | h
            · exact absurd ⟨hxd, h⟩ hc
            · exact h
          exact le_trans h1 this
        · exact h2 x hx hxd
      · rcases h3 with h3 | ⟨x, hx, hfst, hsnd, hrange⟩
        · exact Or.inl h3
        · exact Or.inr ⟨x, by simp [hx], hfst, hsnd, hrange⟩

/-- If the fuzzy matcher returns a key, that key is a member of the
reference list, its distance is within the threshold, and no key of the list
is strictly closer. -/
theorem find_fuzzy_match_some (input : String) (maxD : Nat)
    (companies : List String) (k : String)
    (h : find_fuzzy_match input maxD companies = some k) :
    k ∈ companies ∧ levenshtein_distance input k ≤ maxD ∧
      ∀ x ∈ companies,
        levenshtein_distance input k ≤ levenshtein_distance input x := by
  obtain ⟨h1, h2, h3⟩ := find_fuzzy_match_go_spec input maxD companies none (maxD + 1)
  unfold find_fuzzy_match at h
  rcases h3 with h3 | ⟨v, hv, hfst, hsnd, hrange⟩
  · rw [h3] at h
    simp at h
  · rw [h] at hfst
    have hvk : v = k := by
      have := hfst.symm
      simpa using this
    subst hvk
    refine ⟨hv, hrange, ?_⟩
    intro x hx
    rcases Nat.le_total (levenshtein_distance input x) maxD with hle | hgt'
    · rw [← hsnd]
      exact h2 x hx hle
    · exact le_trans hrange hgt'

/-- If every reference key is strictly beyond the threshold, the fuzzy
matcher returns no match. -/
theorem find_fuzzy_match_none (input : String) (maxD : Nat)
    (companies : List String)
    (h : ∀ x ∈ companies, maxD + 1 ≤ levenshtein_distance input x) :
    find_fuzzy_match input maxD companies = none := by
  unfold find_fuzzy_match
  rw [find_fuzzy_match_go_keep input maxD companies none (maxD + 1)
    (fun x hx hlt => absurd hlt (Nat.not_lt.mpr (h x hx)))]

/-- First-minimizer characterization of the fuzzy loop: if `k` is in range,
closer than everything before it and at least as close as everything after
it, the loop returns `k`. -/
theorem find_fuzzy_match_go_first (input : String) (maxD : Nat) (k : String)
    (hk : levenshtein_distance input k ≤ maxD) :
    ∀ (l1 l2 : List String) (best : Option String) (bestD : Nat),
      (∀ x ∈ l1, levenshtein_distance input k < levenshtein_distance input x) →
      levenshtein_distance input k < bestD →
      (∀ x ∈ l2, levenshtein_distance input k ≤ levenshtein_distance input x) →
      find_fuzzy_match_go input maxD (l1 ++ k :: l2) (best, bestD) =
        (some k, levenshtein_distance input k) := by
  intro l1
  induction l1 with
  | nil =>
    intro l2 best bestD hpre hbd hpost
    simp only [List.nil_append]
    rw [find_fuzzy_match_go, if_pos ⟨hk, hbd⟩]
    exact find_fuzzy_match_go_keep input maxD l2 (some k)
      (levenshtein_distance input k)
      (fun x hx hlt => absurd hlt (Nat.not_lt.mpr (hpost x hx)))
  | cons v l1 ih =>
    intro l2 best bestD hpre hbd hpost
    simp only [List.cons_append]
    rw [find_fuzzy_match_go]
    by_cases hc : levenshtein_distance input v ≤ maxD ∧
        levenshtein_distance input v < bestD
    · rw [if_pos hc]
      exact ih l2 (some v) (levenshtein_distance input v)
        (fun x hx => hpre x (by simp [hx]))
        (hpre v (by simp)) hpost
    · rw [if_neg hc]
      exact ih l2 best bestD (fun x hx => hpre x (by simp [hx])) hbd hpost

theorem upload_to_supabase_fst (w : World) (d f b : String) :
    (upload_to_supabase w d f b).1 = uploadOk w b f := by
  unfold upload_to_supabase uploadOk
  by_cases h1 : 0 < (storage_list w b (pyStrip f)).length
  · simp [h1]
  · by_cases h2 : w.storageUploadOk b (pyStrip f) <;> simp [h1, h2]

theorem mem_upload_to_supabase_effects (w : World) (d f b : String) (e : Effect)
    (h : e ∈ (upload_to_supabase w d f b).2) :
    e = Effect.listSearch b (pyStrip f) ∨ e = Effect.storageWrite b (pyStrip f) := by
  unfold upload_to_supabase at h
  by_cases h1 : 0 < (storage_list w b (pyStrip f)).length
  · simp [h1] at h
    exact Or.inl h
  · by_cases h2 : w.storageUploadOk b (pyStrip f) <;> simp [h1, h2] at h <;>
      exact h

/-! ## Small edit-distance facts -/

theorem levSpec_self (l : List Char) : levSpec l l = 0 := by
  induction l with
  | nil => simp [levSpec_nil_left]
  | cons x xs ih =>
    rw [levSpec_cons_cons]
    simp [ih]

theorem levSpec_snoc_self (l : List Char) (c : Char) :
    levSpec l (l ++ [c]) = 1 := by
  induction l with
  | nil => simp [levSpec_nil_left]
  | cons x xs ih =>
    simp only [List.cons_append]
    rw [levSpec_cons_cons]
    simp only [levSpec_self, ih, eq_self_iff_true, if_true, Nat.add_zero]
    generalize levSpec xs (x :: (xs ++ [c])) = A
    generalize levSpec (x :: xs) (xs ++ [c]) = B
    have h1 : min (B + 1) 1 = 1 := by omega
    rw [h1]
    omega

theorem levStr_self (s : String) : levStr s s = 0 := levSpec_self s.toList

theorem levStr_append_dash (s : String) : levStr s (s ++ "-") = 1 := by
  unfold levStr
  have h : (s ++ "-").toList = s.toList ++ ['-'] := by
    simp [String.toList]
  rw [h]
  exact levSpec_snoc_self s.toList '-'

/-! ## Claim C2: three-tier company resolution -/

/-- C2.  Company resolution tries three tiers in order, stopping at the
first success: exact membership of the normalized candidate key, then
membership of the key with one trailing hyphen appended, then fuzzy
matching.  The fuzzy tier returns a reference key at the smallest unit-cost
Levenshtein distance from the candidate only when that distance is at most
2; when every reference key is at distance 3 or more the resolver returns no
match. -/
theorem C2_company_resolution_tiers (companies : List String) (cf : String) :
    (cf ∈ companies → resolveCompany companies cf = some cf) ∧
    (cf ∉ companies → cf ++ "-" ∈ companies →
      resolveCompany companies cf = some (cf ++ "-")) ∧
    (cf ∉ companies → cf ++ "-" ∉ companies →
      resolveCompany companies cf = find_fuzzy_match cf 2 companies) ∧
    (∀ k, find_fuzzy_match cf 2 companies = some k →
      k ∈ companies ∧ levStr cf k ≤ 2 ∧
        ∀ x ∈ companies, levStr cf k ≤ levStr cf x) ∧
    ((∀ x ∈ companies, 3 ≤ levStr cf x) → resolveCompany companies cf = none) := by
  refine ⟨?_, ?_, ?_, ?_, ?_⟩
  · intro h
    unfold resolveCompany
    rw [if_pos h]
  · intro h1 h2
    unfold resolveCompany
    rw [if_neg h1, if_pos h2]
  · intro h1 h2
    unfold resolveCompany
    rw [if_neg h1, if_neg h2]
  · intro k hk
    obtain ⟨h1, h2, h3⟩ := find_fuzzy_match_some cf 2 companies k hk
    rw [levenshtein_distance_eq_levStr] at h2
    refine ⟨h1, h2, ?_⟩
    intro x hx
    have := h3 x hx
    rwa [levenshtein_distance_eq_levStr, levenshtein_distance_eq_levStr] at this
  · intro hall
    have h1 : cf ∉ companies := by
      intro hmem
      have := hall cf hmem
      rw [levStr_self] at this
      omega
    have h2 : cf ++ "-" ∉ companies := by
      intro hmem
      have := hall (cf ++ "-") hmem
      rw [levStr_append_dash] at this
      omega
    unfold resolveCompany
    rw [if_neg h1, if_neg h2]
    refine find_fuzzy_match_none cf 2 companies ?_
    intro x hx
    rw [levenshtein_distance_eq_levStr]
    exact hall x hx

/-- Witness for C2 at concrete inputs, exercising each tier: the exact
tier, the trailing-hyphen tier, the fuzzy tier at distance 1 (the candidate
`acmee-corp` of the specification example resolves to `acme-corp`), and the
no-match verdict when every key is at distance 3 or more. -/
theorem C2_company_resolution_tiers_witness :
    resolveCompany ["ab"] "ab" = some "ab" ∧
    resolveCompany ["ab-"] "ab" = some "ab-" ∧
    ("acme-corp" ∈ ["acme-corp"] ∧ levStr "acmee-corp" "acme-corp" ≤ 2 ∧
      ∀ x ∈ ["acme-corp"], levStr "acmee-corp" "acme-corp" ≤ levStr "acmee-corp" x) ∧
    resolveCompany ["uvwxyz"] "ab" = none := by
  refine ⟨?_, ?_, ?_, ?_⟩
  · exact (C2_company_resolution_tiers ["ab"] "ab").1 (by decide)
  · exact ((C2_company_resolution_tiers ["ab-"] "ab").2.1 (by decide) (by decide))
  · exact ((C2_company_resolution_tiers ["acme-corp"] "acmee-corp").2.2.2.1
      "acme-corp" (by decide))
  · refine (C2_company_resolution_tiers ["uvwxyz"] "ab").2.2.2.2 ?_
    intro x hx
    have hx' : x = "uvwxyz" := by
      simpa using hx
    subst hx'
    rw [← levenshtein_distance_eq_levStr]
    decide

/-! ## Claim C10: fuzzy tie-breaking keeps the first minimizer -/

/-- C10.  When reference keys tie at the minimal distance (at most 2), the
fuzzy matcher returns the first such key in iteration order: a later key
replaces the current best only when strictly closer, never on a tie. -/
theorem C10_fuzzy_first_minimizer (input k : String) (l1 l2 : List String)
    (hk : levStr input k ≤ 2)
    (hpre : ∀ x ∈ l1, levStr input k < levStr input x)
    (hpost : ∀ x ∈ l2, levStr input k ≤ levStr input x) :
    find_fuzzy_match input 2 (l1 ++ k :: l2) = some k := by
  unfold find_fuzzy_match
  rw [find_fuzzy_match_go_first input 2 k
    (by rw [levenshtein_distance_eq_levStr]; exact hk) l1 l2 none 3
    (fun x hx => by
      rw [levenshtein_distance_eq_levStr, levenshtein_distance_eq_levStr]
      exact hpre x hx)
    (by rw [levenshtein_distance_eq_levStr]; omega)
    (fun x hx => by
      rw [levenshtein_distance_eq_levStr, levenshtein_distance_eq_levStr]
      exact hpost x hx)]

/-- Witness for C10: `abc` and `abd` both sit at distance 1 from `ab`; the
matcher returns `abc`, the first of the two. -/
theorem C10_fuzzy_first_minimizer_witness :
    find_fuzzy_match "ab" 2 (["uvwxyz"] ++ "abc" :: ["abd"]) = some "abc" := by
  refine C10_fuzzy_first_minimizer "ab" "abc" ["uvwxyz"] ["abd"]
    (by rw [← levenshtein_distance_eq_levStr]; decide) ?_ ?_
  · intro x hx
    have hx' : x = "uvwxyz" := by simpa using hx
    subst hx'
    rw [← levenshtein_distance_eq_levStr, ← levenshtein_distance_eq_levStr]
    decide
  · intro x hx
    have hx' : x = "abd" := by simpa using hx
    subst hx'
    rw [← levenshtein_distance_eq_levStr, ← levenshtein_distance_eq_levStr]
    decide

/-- C3 counterexample.  The subject `re: hello` begins with `Re:` compared
case-insensitively, yet the classifier routes the message to the Other
label (`RedirectOther`), not to the reply redirect. -/
theorem C3_counterexample :
    pyStartsWith (pyLower (headerValueD c3Message.payload.headers "Subject" ""))
      (pyLower "Re:") = true ∧
    (validate_email c3Message).action = VAction.moveToOther ∧
    (validate_email c3Message).action ≠ VAction.moveToOriginal := by
  refine ⟨by decide, by decide, by decide⟩

/-- C3 amended.  For every message whose subject begins with exactly `Re:`
or exactly `RE:` (the two spellings the script tests), the classifier
returns the reply redirect carrying the current label set, and this verdict
precedes every later predicate — in particular it does not depend on the
attachments. -/
theorem C3_reply_redirect (m : Message)
    (h : pyStartsWith (headerValueD m.payload.headers "Subject" "") "Re:" = true ∨
      pyStartsWith (headerValueD m.payload.headers "Subject" "") "RE:" = true) :
    validate_email m =
      ⟨false, VAction.moveToOriginal, "Reply email", m.labelIds⟩ := by
  unfold validate_email
  have hb : (pyStartsWith (headerValueD m.payload.headers "Subject" "") "Re:" ||
      pyStartsWith (headerValueD m.payload.headers "Subject" "") "RE:") = true := by
    rcases h with h | h <;> simp [h]
  rw [if_pos hb]

/-- Witness for C3: a reply-subject message with NO invoice attachment still
routes to the reply redirect. -/
theorem C3_reply_redirect_witness :
    validate_email c3ReplyMessage =
      ⟨false, VAction.moveToOriginal, "Reply email", ["INBOX", "L7"]⟩ :=
  C3_reply_redirect c3ReplyMessage (Or.inl (by decide))

/-! ## Claim C5: extraction degradation and unit backfill -/

/-- C5.  Any failure of the extraction collaborator yields exactly the
all-sentinel output `{unit: NA, vin: NA, plate: NA}` (so the backfill rule
cannot fire, the VIN being `NA`); on success, the unit is backfilled from
the last 8 characters of the VIN exactly when the normalized unit is empty
or `NA` while the normalized VIN is not `NA` and has at least 8 characters,
and is otherwise passed through unchanged. -/
theorem C5_extraction_degradation (w : World) (pdf : String) :
    (w.nlp pdf = none → extract_metadata_from_pdf w pdf = ⟨"NA", "NA", "NA"⟩) ∧
    (∀ j, w.nlp pdf = some j →
      (extract_metadata_from_pdf w pdf).vin = normField j.vin ∧
      (extract_metadata_from_pdf w pdf).plate = normField j.plate ∧
      (((normField j.unit = "NA" ∨ normField j.unit = "") ∧
          normField j.vin ≠ "NA" ∧ 8 ≤ (normField j.vin).length) →
        (extract_metadata_from_pdf w pdf).unit =
          strTakeRight 8 (normField j.vin)) ∧
      (¬ ((normField j.unit = "NA" ∨ normField j.unit = "") ∧
          normField j.vin ≠ "NA" ∧ 8 ≤ (normField j.vin).length) →
        (extract_metadata_from_pdf w pdf).unit = normField j.unit)) := by
  constructor
  · intro h
    unfold extract_metadata_from_pdf
    rw [h]
  · intro j hj
    unfold extract_metadata_from_pdf
    rw [hj]
    refine ⟨rfl, rfl, ?_, ?_⟩
    · intro hcond
      show (if (normField j.unit = "NA" ∨ normField j.unit = "") ∧
          normField j.vin ≠ "NA" ∧ 8 ≤ (normField j.vin).length then
            strTakeRight 8 (normField j.vin)
          else normField j.unit) = strTakeRight 8 (normField j.vin)
      rw [if_pos hcond]
    · intro hcond
      show (if (normField j.unit = "NA" ∨ normField j.unit = "") ∧
          normField j.vin ≠ "NA" ∧ 8 ≤ (normField j.vin).length then
            strTakeRight 8 (normField j.vin)
          else normField j.unit) = normField j.unit
      rw [if_neg hcond]

/-- Witness for C5: a failing collaborator degrades to all sentinels, and a
successful answer with a missing unit backfills the unit from the last 8
characters of the VIN. -/
theorem C5_extraction_degradation_witness :
    extract_metadata_from_pdf c5FailWorld "pdfbytes" = ⟨"NA", "NA", "NA"⟩ ∧
    (extract_metadata_from_pdf c5OkWorld "pdfbytes").unit =
      strTakeRight 8 (normField (some "1HGCM82633A004352")) := by
  constructor
  · exact (C5_extraction_degradation c5FailWorld "pdfbytes").1 rfl
  · exact ((C5_extraction_degradation c5OkWorld "pdfbytes").2
      ⟨none, some "1HGCM82633A004352", some "XY Z12"⟩ rfl).2.2.1 (by decide)

/-! ## Claim C6: upload dedup -/

/-- C6.  If a file of the exact target name already exists in the bucket,
the upload step reports success without issuing a write call; a write call
is issued only when no file of that name exists. -/
theorem C6_upload_dedup (w : World) (data fname bucket : String) :
    (pyStrip fname ∈ w.bucketFiles bucket →
      upload_to_supabase w data fname bucket =
        (true, [Effect.listSearch bucket (pyStrip fname)])) ∧
    (Effect.storageWrite bucket (pyStrip fname) ∈
        (upload_to_supabase w data fname bucket).2 →
      pyStrip fname ∉ w.bucketFiles bucket) := by
  constructor
  · intro hmem
    have hlist : 0 < (storage_list w bucket (pyStrip fname)).length := by
      have : pyStrip fname ∈ storage_list w bucket (pyStrip fname) := by
        unfold storage_list
        exact List.mem_filter.mpr ⟨hmem, hasSub_refl (pyStrip fname)⟩
      exact List.length_pos.mpr (List.ne_nil_of_mem this)
    unfold upload_to_supabase
    rw [if_pos hlist]
  · intro hw hmem
    have hlist : 0 < (storage_list w bucket (pyStrip fname)).length := by
      have : pyStrip fname ∈ storage_list w bucket (pyStrip fname) := by
        unfold storage_list
        exact List.mem_filter.mpr ⟨hmem, hasSub_refl (pyStrip fname)⟩
      exact List.length_pos.mpr (List.ne_nil_of_mem this)
    unfold upload_to_supabase at hw
    rw [if_pos hlist] at hw
    simp at hw

/-- Witness for C6: with `inv.pdf` already in the bucket, the upload step
reports success and the trace holds only the listing call, no write. -/
theorem C6_upload_dedup_witness :
    upload_to_supabase c6World "bytes" "inv.pdf" "INVOICE" =
      (true, [Effect.listSearch "INVOICE" (pyStrip "inv.pdf")]) :=
  (C6_upload_dedup c6World "bytes" "inv.pdf" "INVOICE").1 (by decide)

/-! ## Claim C8: the trailing-comma rule

The claim says whitespace preceding the comma survives into the candidate
key.  The script strips the line, removes the comma, and strips AGAIN
(`first_line[:-1].strip()`), so whitespace on BOTH sides of the removed
comma is gone. -/

theorem dropWhile_all_false (p : Char → Bool) :
    ∀ l : List Char, (∀ c ∈ l, p c = false) → l.dropWhile p = l := by
  intro l h
  induction l with
  | nil => rfl
  | cons c cs ih =>
    rw [List.dropWhile_cons]
    rw [h c (by simp)]
    simp

theorem dropWhile_append_all_true (p : Char → Bool) :
    ∀ a b : List Char, (∀ c ∈ a, p c = true) →
      (a ++ b).dropWhile p = b.dropWhile p := by
  intro a
  induction a with
  | nil => intro b _; rfl
  | cons c cs ih =>
    intro b h
    rw [List.cons_append, List.dropWhile_cons, h c (by simp)]
    simp only
    exact ih b (fun x hx => h x (by simp [hx]))

theorem pyStripList_sandwich (sl : List Char) (k : Nat)
    (h : ∀ c ∈ sl, isPySpace c = false) :
    pyStripList (sl ++ List.replicate k ' ') = sl := by
  unfold pyStripList
  have hrep : ∀ c ∈ List.replicate k ' ', isPySpace c = true := by
    intro c hc
    rw [List.eq_of_mem_replicate hc]
    rfl
  cases sl with
  | nil =>
    simp only [List.nil_append]
    have h1 : (List.replicate k ' ').dropWhile isPySpace = [] := by
      have := dropWhile_append_all_true isPySpace (List.replicate k ' ') [] hrep
      simpa using this
    rw [h1]
    rfl
  | cons c t =>
    have hc : isPySpace c = false := h c (by simp)
    rw [List.cons_append, List.dropWhile_cons, hc]
    simp only [Bool.false_eq_true, if_false, List.reverse_cons, List.reverse_append,
      List.reverse_replicate]
    rw [List.append_assoc]
    rw [dropWhile_append_all_true isPySpace (List.replicate k ' ')
      (t.reverse ++ [c]) hrep]
    have hall : ∀ x ∈ t.reverse ++ [c], isPySpace x = false := by
      intro x hx
      rcases List.mem_append.mp hx with hx | hx
      · exact h x (by simp [List.mem_reverse.mp hx])
      · simp at hx
        subst hx
        exact hc
    rw [dropWhile_all_false isPySpace (t.reverse ++ [c]) hall]
    simp

/-- C8 counterexample.  With first line `Acme    ,`, the whitespace
preceding the comma is stripped by the code: the candidate becomes `Acme`
and the candidate key `acme` — not the `acme----` the claim predicts
(whitespace surviving and turning into hyphens).  Against the reference set
`[acme]` the code resolves the company, while the claimed candidate key
would resolve to no match. -/
theorem C8_counterexample :
    firstLineCompany "Acme    ,\nBody" = "Acme" ∧
    pyReplace (pyLower (firstLineCompany "Acme    ,\nBody")) " " "-" = "acme" ∧
    "acme" ≠ "acme----" ∧
    extract_company_name ["acme"] c8Message = some "acme" ∧
    resolveCompany ["acme"] "acme----" = none := by
  refine ⟨by decide, by decide, by decide, by decide, by decide⟩

/-- C8 amended.  When the stripped first line of the plain-text body ends
with a comma, the candidate is the line with the comma removed and the
remainder stripped of whitespace on BOTH sides: whitespace following the
comma is gone (already by the line strip), and whitespace preceding the
comma is stripped as well, so it does not survive into the candidate key. -/
theorem C8_comma_strip :
    (∀ text fl, fl = pyStrip (firstLineOf text) → pyEndsWith fl "," = true →
      firstLineCompany text = pyStrip (dropLastChar fl)) ∧
    (∀ (s : String) (k : Nat), (∀ c ∈ s.toList, isPySpace c = false) →
      pyStrip (dropLastChar (s ++ String.mk (List.replicate k ' ') ++ ",")) = s) := by
  constructor
  · intro text fl hfl hc
    unfold firstLineCompany
    rw [← hfl, if_pos hc]
  · intro s k h
    have htl : (s ++ String.mk (List.replicate k ' ') ++ ",").toList =
        (s.toList ++ List.replicate k ' ') ++ [','] := by
      simp [String.toList, String.data_append]
    show String.mk (pyStripList (String.mk
      ((s ++ String.mk (List.replicate k ' ') ++ ",").toList.dropLast)).toList) = s
    rw [htl, List.dropLast_concat]
    show String.mk (pyStripList (s.toList ++ List.replicate k ' ')) = s
    rw [pyStripList_sandwich s.toList k h]
    cases s
    rfl

/-- Witness for C8: the concrete line `Acme    ,` — the candidate equals the
comma-dropped, twice-stripped line, and the whitespace before the comma is
gone. -/
theorem C8_comma_strip_witness :
    firstLineCompany "Acme    ,\nBody" = pyStrip (dropLastChar "Acme    ,") ∧
    pyStrip (dropLastChar ("Acme" ++ String.mk (List.replicate 4 ' ') ++ ",")) =
      "Acme" := by
  constructor
  · exact C8_comma_strip.1 "Acme    ,\nBody" "Acme    ," (by decide) (by decide)
  · exact C8_comma_strip.2 "Acme" 4 (by decide)

/-! ## Claim C9: Skip leaves mailbox and ledger untouched -/

/-- C9.  A message classified `Skip` (by any of the skip predicates) causes
no mailbox mutation and no ledger write: the loop iteration only fetches
the message, bumps the skip counter, and leaves the state otherwise
unchanged. -/
theorem C9_skip_is_pure (w : World) (st : ProcState) (msg_id : String)
    (hgate : is_already_processed st msg_id = false)
    (hskip : (validate_email (w.getMessage msg_id)).action = VAction.skip) :
    inboxStep w st msg_id =
      ({ st with skipped_count := st.skipped_count + 1 },
        [Effect.fetchMessage msg_id]) := by
  unfold inboxStep
  rw [hgate]
  simp only [Bool.false_eq_true, if_false]
  rw [hskip]

/-- Witness for C9: a not-first-in-thread message is skipped with only the
fetch in the trace. -/
theorem C9_skip_is_pure_witness :
    inboxStep c9World st0 "m9" =
      ({ st0 with skipped_count := st0.skipped_count + 1 },
        [Effect.fetchMessage "m9"]) :=
  C9_skip_is_pure c9World st0 "m9" (by decide) (by decide)

/-! ## Claim C4: uploads gate the label move and the success record -/

theorem labelModify_not_mem_upload (w : World) (d f b i : String)
    (a r : List String) :
    Effect.labelModify i a r ∉ (upload_to_supabase w d f b).2 := by
  intro h
  rcases mem_upload_to_supabase_effects w d f b _ h with h | h <;> simp at h

theorem ledgerWrite_not_mem_upload (w : World) (d f b i : String)
    (row : List String) :
    Effect.ledgerWrite i row ∉ (upload_to_supabase w d f b).2 := by
  intro h
  rcases mem_upload_to_supabase_effects w d f b _ h with h | h <;> simp at h

theorem mem_move_to_sorted_label (w : World) (i : String) (e : Effect)
    (h : e ∈ (move_to_sorted_label w i).2) :
    ∃ lid, e = Effect.labelModify i [lid] ["INBOX"] := by
  unfold move_to_sorted_label at h
  cases hs : w.sortedLabelId with
  | none => rw [hs] at h; simp at h
  | some lid =>
    rw [hs] at h
    simp at h
    exact ⟨lid, h⟩

theorem ledgerWrite_not_mem_sorted (w : World) (i j : String)
    (row : List String) :
    Effect.ledgerWrite j row ∉ (move_to_sorted_label w i).2 := by
  intro h
  obtain ⟨lid, hl⟩ := mem_move_to_sorted_label w i _ h
  simp at hl

theorem log_to_sheet_snd (w : World) (st : ProcState)
    (message_id subject company invoice_file dot_file status error : String) :
    (log_to_sheet w st message_id subject company invoice_file dot_file
        status error).2 =
      [Effect.ledgerWrite message_id
        [w.timestamp, message_id, pyTake subject 100, company, invoice_file,
          if dot_file = "" then "N/A" else dot_file, status,
          if error = "" then "" else pyTake error 200]] := by
  unfold log_to_sheet
  rcases h : lookupRow st.message_id_to_row message_id with _ | rn <;> simp [h]

theorem c4_fail_case (w : World) (i : String) (effs : List Effect)
    (hnl : ∀ a r, Effect.labelModify i a r ∉ effs)
    (hlw : ∀ row2, Effect.ledgerWrite i row2 ∈ effs → row2.getD 6 "" = "failed") :
    (∀ a r, Effect.labelModify i a r ∈ effs →
      ∃ row2, Effect.ledgerWrite i row2 ∈ effs ∧ row2.getD 6 "" = "success") ∧
    (∀ row2, Effect.ledgerWrite i row2 ∈ effs → row2.getD 6 "" = "success" →
      uploadOk w "INVOICE" (row2.getD 4 "") = true ∧
      (row2.getD 5 "" ≠ "N/A" → uploadOk w "DOT" (row2.getD 5 "") = true)) ∧
    (∀ row2, Effect.ledgerWrite i row2 ∈ effs →
      (uploadOk w "INVOICE" (row2.getD 4 "") = false ∨
        (row2.getD 5 "" ≠ "N/A" ∧ uploadOk w "DOT" (row2.getD 5 "") = false)) →
      row2.getD 6 "" = "failed" ∧ ∀ a r, Effect.labelModify i a r ∉ effs) := by
  refine ⟨?_, ?_, ?_⟩
  · intro a r h
    exact absurd h (hnl a r)
  · intro row2 h2 hs
    rw [hlw row2 h2] at hs
    simp at hs
  · intro row2 h2 _
    exact ⟨hlw row2 h2, hnl⟩

theorem c4_success_case (w : World) (i : String) (effs : List Effect)
    (hex : ∃ row, Effect.ledgerWrite i row ∈ effs ∧ row.getD 6 "" = "success")
    (hall : ∀ row2, Effect.ledgerWrite i row2 ∈ effs →
      row2.getD 6 "" = "success" ∧
      uploadOk w "INVOICE" (row2.getD 4 "") = true ∧
      (row2.getD 5 "" ≠ "N/A" → uploadOk w "DOT" (row2.getD 5 "") = true)) :
    (∀ a r, Effect.labelModify i a r ∈ effs →
      ∃ row2, Effect.ledgerWrite i row2 ∈ effs ∧ row2.getD 6 "" = "success") ∧
    (∀ row2, Effect.ledgerWrite i row2 ∈ effs → row2.getD 6 "" = "success" →
      uploadOk w "INVOICE" (row2.getD 4 "") = true ∧
      (row2.getD 5 "" ≠ "N/A" → uploadOk w "DOT" (row2.getD 5 "") = true)) ∧
    (∀ row2, Effect.ledgerWrite i row2 ∈ effs →
      (uploadOk w "INVOICE" (row2.getD 4 "") = false ∨
        (row2.getD 5 "" ≠ "N/A" ∧ uploadOk w "DOT" (row2.getD 5 "") = false)) →
      row2.getD 6 "" = "failed" ∧ ∀ a r, Effect.labelModify i a r ∉ effs) := by
  refine ⟨?_, ?_, ?_⟩
  · intro a r _
    exact hex
  · intro row2 h2 _
    exact (hall row2 h2).2
  · intro row2 h2 hbad
    obtain ⟨_, hinv, hdot⟩ := hall row2 h2
    rcases hbad with hbad | ⟨hne, hbad⟩
    · rw [hinv] at hbad
      simp at hbad
    · rw [hdot hne] at hbad
      simp at hbad

theorem c4_uploadStageDots (w : World) (st : ProcState)
    (i subject company invFn dotFn invData merged : String) :
    (∀ a r, Effect.labelModify i a r ∈
        (uploadStageDots w st i subject company invFn dotFn invData merged).2 →
      ∃ row2, Effect.ledgerWrite i row2 ∈
          (uploadStageDots w st i subject company invFn dotFn invData merged).2 ∧
        row2.getD 6 "" = "success") ∧
    (∀ row2, Effect.ledgerWrite i row2 ∈
        (uploadStageDots w st i subject company invFn dotFn invData merged).2 →
      row2.getD 6 "" = "success" →
      uploadOk w "INVOICE" (row2.getD 4 "") = true ∧
      (row2.getD 5 "" ≠ "N/A" → uploadOk w "DOT" (row2.getD 5 "") = true)) ∧
    (∀ row2, Effect.ledgerWrite i row2 ∈
        (uploadStageDots w st i subject company invFn dotFn invData merged).2 →
      (uploadOk w "INVOICE" (row2.getD 4 "") = false ∨
        (row2.getD 5 "" ≠ "N/A" ∧ uploadOk w "DOT" (row2.getD 5 "") = false)) →
      row2.getD 6 "" = "failed" ∧
        ∀ a r, Effect.labelModify i a r ∉
          (uploadStageDots w st i subject company invFn dotFn invData merged).2) := by
  unfold uploadStageDots
  rcases h1 : (upload_to_supabase w invData invFn "INVOICE").1 with _ | _
  · simp only [h1, Bool.false_and, Bool.false_eq_true, if_false, log_to_sheet_snd]
    apply c4_fail_case
    · intro a r h
      rcases List.mem_append.mp h with h | h
      · rcases List.mem_append.mp h with h | h
        · exact labelModify_not_mem_upload w invData invFn "INVOICE" i a r h
        · exact labelModify_not_mem_upload w merged dotFn "DOT" i a r h
      · simp at h
    · intro row2 h
      rcases List.mem_append.mp h with h | h
      · rcases List.mem_append.mp h with h | h
        · exact absurd h (ledgerWrite_not_mem_upload w invData invFn "INVOICE" i row2)
        · exact absurd h (ledgerWrite_not_mem_upload w merged dotFn "DOT" i row2)
      · have heq : row2 = [w.timestamp, i, pyTake subject 100, company, invFn,
          if dotFn = "" then "N/A" else dotFn, "failed",
          if ("Upload failed" : String) = "" then ""
          else pyTake "Upload failed" 200] := by
          simpa using h
        subst heq
        rfl
  · rcases h2 : (upload_to_supabase w merged dotFn "DOT").1 with _ | _
    · simp only [h1, h2, Bool.true_and, Bool.false_eq_true, if_false, log_to_sheet_snd]
      apply c4_fail_case
      · intro a r h
        rcases List.mem_append.mp h with h | h
        · rcases List.mem_append.mp h with h | h
          · exact labelModify_not_mem_upload w invData invFn "INVOICE" i a r h
          · exact labelModify_not_mem_upload w merged dotFn "DOT" i a r h
        · simp at h
      · intro row2 h
        rcases List.mem_append.mp h with h | h
        · rcases List.mem_append.mp h with h | h
          · exact absurd h (ledgerWrite_not_mem_upload w invData invFn "INVOICE" i row2)
          · exact absurd h (ledgerWrite_not_mem_upload w merged dotFn "DOT" i row2)
        · have heq : row2 = [w.timestamp, i, pyTake subject 100, company, invFn,
            if dotFn = "" then "N/A" else dotFn, "failed",
            if ("Upload failed" : String) = "" then ""
            else pyTake "Upload failed" 200] := by
            simpa using h
          subst heq
          rfl
    · simp only [h1, h2, Bool.true_and, if_true, log_to_sheet_snd]
      apply c4_success_case
      · refine ⟨[w.timestamp, i, pyTake subject 100, company, invFn,
          if dotFn = "" then "N/A" else dotFn, "success",
          if ("" : String) = "" then "" else pyTake "" 200], by simp, rfl⟩
      · intro row2 h
        rcases List.mem_append.mp h with h | h
        · rcases List.mem_append.mp h with h | h
          · rcases List.mem_append.mp h with h | h
            · exact absurd h (ledgerWrite_not_mem_upload w invData invFn "INVOICE" i row2)
            · exact absurd h (ledgerWrite_not_mem_upload w merged dotFn "DOT" i row2)
          · exact absurd h (ledgerWrite_not_mem_sorted w i i row2)
        · have heq : row2 = [w.timestamp, i, pyTake subject 100, company, invFn,
            if dotFn = "" then "N/A" else dotFn, "success",
            if ("" : String) = "" then "" else pyTake "" 200] := by
            simpa using h
          subst heq
          refine ⟨rfl, ?_, ?_⟩
          · show uploadOk w "INVOICE" invFn = true
            rw [← upload_to_supabase_fst w invData invFn "INVOICE"]
            exact h1
          · intro hne
            by_cases hdf : dotFn = ""
            · exact absurd
                (by simp [hdf] : ([w.timestamp, i, pyTake subject 100, company,
                  invFn, if dotFn = "" then "N/A" else dotFn, "success",
                  if ("" : String) = "" then "" else pyTake "" 200].getD 5 "")
                    = "N/A") hne
            · show uploadOk w "DOT" (if dotFn = "" then "N/A" else dotFn) = true
              rw [if_neg hdf, ← upload_to_supabase_fst w merged dotFn "DOT"]
              exact h2

theorem c4_uploadStageNoDots (w : World) (st : ProcState)
    (i subject company invFn invData : String) :
    (∀ a r, Effect.labelModify i a r ∈
        (uploadStageNoDots w st i subject company invFn invData).2 →
      ∃ row2, Effect.ledgerWrite i row2 ∈
          (uploadStageNoDots w st i subject company invFn invData).2 ∧
        row2.getD 6 "" = "success") ∧
    (∀ row2, Effect.ledgerWrite i row2 ∈
        (uploadStageNoDots w st i subject company invFn invData).2 →
      row2.getD 6 "" = "success" →
      uploadOk w "INVOICE" (row2.getD 4 "") = true ∧
      (row2.getD 5 "" ≠ "N/A" → uploadOk w "DOT" (row2.getD 5 "") = true)) ∧
    (∀ row2, Effect.ledgerWrite i row2 ∈
        (uploadStageNoDots w st i subject company invFn invData).2 →
      (uploadOk w "INVOICE" (row2.getD 4 "") = false ∨
        (row2.getD 5 "" ≠ "N/A" ∧ uploadOk w "DOT" (row2.getD 5 "") = false)) →
      row2.getD 6 "" = "failed" ∧
        ∀ a r, Effect.labelModify i a r ∉
          (uploadStageNoDots w st i subject company invFn invData).2) := by
  unfold uploadStageNoDots
  rcases h1 : (upload_to_supabase w invData invFn "INVOICE").1 with _ | _
  · simp only [h1, Bool.false_eq_true, if_false, log_to_sheet_snd]
    apply c4_fail_case
    · intro a r h
      rcases List.mem_append.mp h with h | h
      · exact labelModify_not_mem_upload w invData invFn "INVOICE" i a r h
      · simp at h
    · intro row2 h
      rcases List.mem_append.mp h with h | h
      · exact absurd h (ledgerWrite_not_mem_upload w invData invFn "INVOICE" i row2)
      · have heq := List.mem_singleton.mp h
        injection heq with hh1 hh2
        subst hh2
        rfl
  · simp only [h1, if_true, log_to_sheet_snd]
    apply c4_success_case
    · refine ⟨[w.timestamp, i, pyTake subject 100, company, invFn,
        if ("" : String) = "" then "N/A" else "", "success",
        if ("" : String) = "" then "" else pyTake "" 200], by simp, rfl⟩
    · intro row2 h
      rcases List.mem_append.mp h with h | h
      · rcases List.mem_append.mp h with h | h
        · exact absurd h (ledgerWrite_not_mem_upload w invData invFn "INVOICE" i row2)
        · exact absurd h (ledgerWrite_not_mem_sorted w i i row2)
      · have heq := List.mem_singleton.mp h
        injection heq with hh1 hh2
        subst hh2
        refine ⟨rfl, ?_, ?_⟩
        · show uploadOk w "INVOICE" invFn = true
          rw [← upload_to_supabase_fst w invData invFn "INVOICE"]
          exact h1
        · intro hne
          exact absurd (by simp) hne

/-- C4.  For every processed message, the mailbox label mutation and the
`success` ledger record happen only when every required upload (the
invoice, and the merged supporting bundle when supporting attachments
exist) confirmed success; on any upload failure the ledger row is `failed`
and no mailbox label is mutated.  The ledger row columns 4/5 carry the
invoice and supporting filenames (`N/A` when no bundle was required), and
`uploadOk` is the success verdict of the upload step for that target. -/
theorem C4_upload_gates_mutation (w : World) (st : ProcState) (m : Message) :
    (∀ a r, Effect.labelModify m.id a r ∈ (process_single_email w st m).2 →
      ∃ row, Effect.ledgerWrite m.id row ∈ (process_single_email w st m).2 ∧
        row.getD 6 "" = "success") ∧
    (∀ row, Effect.ledgerWrite m.id row ∈ (process_single_email w st m).2 →
      row.getD 6 "" = "success" →
      uploadOk w "INVOICE" (row.getD 4 "") = true ∧
      (row.getD 5 "" ≠ "N/A" → uploadOk w "DOT" (row.getD 5 "") = true)) ∧
    (∀ row, Effect.ledgerWrite m.id row ∈ (process_single_email w st m).2 →
      (uploadOk w "INVOICE" (row.getD 4 "") = false ∨
        (row.getD 5 "" ≠ "N/A" ∧ uploadOk w "DOT" (row.getD 5 "") = false)) →
      row.getD 6 "" = "failed" ∧
        ∀ a r, Effect.labelModify m.id a r ∉ (process_single_email w st m).2) := by
  unfold process_single_email
  rcases hco : extract_company_name w.companies m with _ | company
  · simp only [hco, log_to_sheet_snd]
    apply c4_fail_case
    · intro a r h
      simp at h
    · intro row2 h
      have heq := List.mem_singleton.mp h
      injection heq with hh1 hh2
      subst hh2
      rfl
  · simp only [hco]
    rcases hA : (get_attachments w m).isEmpty with _ | _
    · simp only [hA, Bool.false_eq_true, if_false]
      rcases hsel : (selectAtts (get_attachments w m)).1 with _ | inv
      · simp only [hsel, log_to_sheet_snd]
        apply c4_fail_case
        · intro a r h
          simp at h
        · intro row2 h
          have heq := List.mem_singleton.mp h
          injection heq with hh1 hh2
          subst hh2
          rfl
      · simp only [hsel]
        rcases hd : (selectAtts (get_attachments w m)).2.isEmpty with _ | _
        · simp only [hd, Bool.not_false, if_true]
          apply c4_uploadStageDots
        · simp only [hd, Bool.not_true, Bool.false_eq_true, if_false]
          apply c4_uploadStageNoDots
    · simp only [hA, if_true, log_to_sheet_snd]
      apply c4_fail_case
      · intro a r h
        simp at h
      · intro row2 h
        have heq := List.mem_singleton.mp h
        injection heq with hh1 hh2
        subst hh2
        rfl

/-- Witness for C4: in a run whose uploads succeed, the trace carries the
label move, and the theorem produces the matching `success` ledger row. -/
theorem C4_upload_gates_mutation_witness :
    ∃ row, Effect.ledgerWrite "m4" row ∈
        (process_single_email c4World st0 c4Message).2 ∧
      row.getD 6 "" = "success" :=
  (C4_upload_gates_mutation c4World st0 c4Message).1 ["SORTED"] ["INBOX"]
    (by decide)

theorem dropWhile_idem (p : Char → Bool) (l : List Char) :
    (l.dropWhile p).dropWhile p = l.dropWhile p := by
  induction l with
  | nil => rfl
  | cons a t ih =>
    rw [List.dropWhile_cons]
    by_cases h : p a = true
    · rw [if_pos h]
      exact ih
    · rw [if_neg h, List.dropWhile_cons, if_neg h]

theorem head?_dropWhile (p : Char → Bool) (l : List Char) (a : Char)
    (h : (l.dropWhile p).head? = some a) : p a = false := by
  induction l with
  | nil => simp at h
  | cons b t ih =>
    rw [List.dropWhile_cons] at h
    by_cases hb : p b = true
    · rw [if_pos hb] at h
      exact ih h
    · rw [if_neg hb] at h
      simp at h
      subst h
      simpa using hb

theorem getLast?_dropWhile (p : Char → Bool) (l : List Char) :
    l.dropWhile p = [] ∨ (l.dropWhile p).getLast? = l.getLast? := by
  induction l with
  | nil => exact Or.inl rfl
  | cons a t ih =>
    rw [List.dropWhile_cons]
    by_cases ha : p a = true
    · rw [if_pos ha]
      cases ht : t.dropWhile p with
      | nil => exact Or.inl rfl
      | cons x xs =>
        right
        rcases ih with ih | ih
        · rw [ih] at ht
          simp at ht
        · rw [← ht, ih]
          cases t with
          | nil => simp at ht
          | cons y ys => rw [List.getLast?_cons_cons]
    · rw [if_neg ha]
      exact Or.inr rfl

theorem pyStripList_idem (l : List Char) :
    pyStripList (pyStripList l) = pyStripList l := by
  have key : ∀ m : List Char, (∀ a, m.head? = some a → isPySpace a = false) →
      (∀ a, m.getLast? = some a → isPySpace a = false) →
      pyStripList m = m := by
    intro m h1 h2
    unfold pyStripList
    have hd : m.dropWhile isPySpace = m := by
      cases hm : m with
      | nil => rfl
      | cons b t =>
        have hb := h1 b (by rw [hm]; rfl)
        rw [List.dropWhile_cons, hb]
        simp
    rw [hd]
    have hr : m.reverse.dropWhile isPySpace = m.reverse := by
      cases hm : m.reverse with
      | nil => rfl
      | cons b t =>
        have hb : m.getLast? = some b := by
          rw [← List.head?_reverse, hm]
          rfl
        have hpb := h2 b hb
        rw [List.dropWhile_cons, hpb]
        simp
    rw [hr, List.reverse_reverse]
  apply key
  · intro a ha
    unfold pyStripList at ha
    rw [List.head?_reverse] at ha
    rcases getLast?_dropWhile isPySpace (l.dropWhile isPySpace).reverse with h | h
    · rw [h] at ha
      simp at ha
    · rw [h, List.getLast?_reverse] at ha
      exact head?_dropWhile isPySpace l a ha
  · intro a ha
    unfold pyStripList at ha
    rw [List.getLast?_reverse] at ha
    exact head?_dropWhile isPySpace (l.dropWhile isPySpace).reverse a ha

theorem pyStrip_idem (s : String) : pyStrip (pyStrip s) = pyStrip s := by
  show String.mk (pyStripList (String.mk (pyStripList s.toList)).toList) =
    String.mk (pyStripList s.toList)
  rw [show (String.mk (pyStripList s.toList)).toList = pyStripList s.toList from rfl,
    pyStripList_idem]

theorem listSearch_mem_upload (w : World) (d f b bk fn : String)
    (h : Effect.listSearch bk fn ∈ (upload_to_supabase w d f b).2) :
    bk = b ∧ fn = pyStrip f := by
  rcases mem_upload_to_supabase_effects w d f b _ h with h | h
  · injection h with h1 h2
    exact ⟨h1, h2⟩
  · simp at h

theorem storageWrite_mem_upload (w : World) (d f b bk fn : String)
    (h : Effect.storageWrite bk fn ∈ (upload_to_supabase w d f b).2) :
    bk = b ∧ fn = pyStrip f := by
  rcases mem_upload_to_supabase_effects w d f b _ h with h | h
  · simp at h
  · injection h with h1 h2
    exact ⟨h1, h2⟩

theorem listSearch_not_mem_sorted (w : World) (i bk fn : String) :
    Effect.listSearch bk fn ∉ (move_to_sorted_label w i).2 := by
  intro h
  obtain ⟨lid, hl⟩ := mem_move_to_sorted_label w i _ h
  simp at hl

theorem storageWrite_not_mem_sorted (w : World) (i bk fn : String) :
    Effect.storageWrite bk fn ∉ (move_to_sorted_label w i).2 := by
  intro h
  obtain ⟨lid, hl⟩ := mem_move_to_sorted_label w i _ h
  simp at hl

theorem uploadStageDots_listSearch (w : World) (st : ProcState)
    (i subject company invFn dotFn invData merged bk fn : String)
    (h : Effect.listSearch bk fn ∈
      (uploadStageDots w st i subject company invFn dotFn invData merged).2) :
    (bk = "INVOICE" ∧ fn = pyStrip invFn) ∨ (bk = "DOT" ∧ fn = pyStrip dotFn) := by
  unfold uploadStageDots at h
  simp only [] at h
  split at h
  · rcases List.mem_append.mp h with h | h
    · rcases List.mem_append.mp h with h | h
      · rcases List.mem_append.mp h with h | h
        · exact Or.inl (listSearch_mem_upload w invData invFn "INVOICE" bk fn h)
        · exact Or.inr (listSearch_mem_upload w merged dotFn "DOT" bk fn h)
      · exact absurd h (listSearch_not_mem_sorted w i bk fn)
    · rw [log_to_sheet_snd] at h
      simp at h
  · rcases List.mem_append.mp h with h | h
    · rcases List.mem_append.mp h with h | h
      · exact Or.inl (listSearch_mem_upload w invData invFn "INVOICE" bk fn h)
      · exact Or.inr (listSearch_mem_upload w merged dotFn "DOT" bk fn h)
    · rw [log_to_sheet_snd] at h
      simp at h

theorem uploadStageNoDots_listSearch (w : World) (st : ProcState)
    (i subject company invFn invData bk fn : String)
    (h : Effect.listSearch bk fn ∈
      (uploadStageNoDots w st i subject company invFn invData).2) :
    bk = "INVOICE" ∧ fn = pyStrip invFn := by
  unfold uploadStageNoDots at h
  simp only [] at h
  split at h
  · rcases List.mem_append.mp h with h | h
    · rcases List.mem_append.mp h with h | h
      · exact listSearch_mem_upload w invData invFn "INVOICE" bk fn h
      · exact absurd h (listSearch_not_mem_sorted w i bk fn)
    · rw [log_to_sheet_snd] at h
      simp at h
  · rcases List.mem_append.mp h with h | h
    · exact listSearch_mem_upload w invData invFn "INVOICE" bk fn h
    · rw [log_to_sheet_snd] at h
      simp at h

theorem uploadStageNoDots_storageWrite (w : World) (st : ProcState)
    (i subject company invFn invData bk fn : String)
    (h : Effect.storageWrite bk fn ∈
      (uploadStageNoDots w st i subject company invFn invData).2) :
    bk = "INVOICE" ∧ fn = pyStrip invFn := by
  unfold uploadStageNoDots at h
  simp only [] at h
  split at h
  · rcases List.mem_append.mp h with h | h
    · rcases List.mem_append.mp h with h | h
      · exact storageWrite_mem_upload w invData invFn "INVOICE" bk fn h
      · exact absurd h (storageWrite_not_mem_sorted w i bk fn)
    · rw [log_to_sheet_snd] at h
      simp at h
  · rcases List.mem_append.mp h with h | h
    · exact storageWrite_mem_upload w invData invFn "INVOICE" bk fn h
    · rw [log_to_sheet_snd] at h
      simp at h

theorem strAppend_assoc (a b c : String) : a ++ b ++ c = a ++ (b ++ c) := by
  cases a with
  | mk da =>
    cases b with
    | mk db =>
      cases c with
      | mk dc =>
        show String.mk ((da ++ db) ++ dc) = String.mk (da ++ (db ++ dc))
        rw [List.append_assoc]

/-- C7.  Once a message reaches the upload stage, every storage listing for
the `INVOICE` bucket targets exactly
`<company>__I-<invoice#>__U-<unit>__V-<vin>__D-<date>__P-<plate>.pdf`
(stripped), every listing for the `DOT` bucket targets the same string with
the additional `__dot__` segment immediately after the company, and with
zero supporting attachments no `DOT` listing or write is produced at
all. -/
theorem C7_filename_synthesis (w : World) (st : ProcState) (m : Message)
    (company : String) (inv : Att)
    (hco : extract_company_name w.companies m = some company)
    (hA : (get_attachments w m).isEmpty = false)
    (hsel : (selectAtts (get_attachments w m)).1 = some inv) :
    ∃ rest,
      rest = "I-" ++ extract_invoice_number (get_attachments w m) ++
        "__U-" ++ (extract_metadata_from_pdf w inv.data).unit ++
        "__V-" ++ (extract_metadata_from_pdf w inv.data).vin ++
        "__D-" ++ get_email_date w m ++
        "__P-" ++ (extract_metadata_from_pdf w inv.data).plate ++ ".pdf" ∧
      (∀ fn, Effect.listSearch "INVOICE" fn ∈ (process_single_email w st m).2 →
        fn = pyStrip (company ++ "__" ++ rest)) ∧
      (∀ fn, Effect.listSearch "DOT" fn ∈ (process_single_email w st m).2 →
        fn = pyStrip (company ++ "__dot__" ++ rest)) ∧
      ((selectAtts (get_attachments w m)).2.isEmpty = true →
        ∀ fn, Effect.listSearch "DOT" fn ∉ (process_single_email w st m).2 ∧
          Effect.storageWrite "DOT" fn ∉ (process_single_email w st m).2) := by
  refine ⟨_, rfl, ?_, ?_, ?_⟩ <;>
    unfold process_single_email <;>
    simp only [hco, hA, hsel, Bool.false_eq_true, if_false]
  · intro fn h
    rcases hd : (selectAtts (get_attachments w m)).2.isEmpty with _ | _
    · rw [hd] at h
      simp only [Bool.not_false, if_true] at h
      rcases uploadStageDots_listSearch w st m.id _ company _ _ _ _ "INVOICE" fn h with
        ⟨_, hfn⟩ | ⟨hbad, _⟩
      · rw [hfn, pyStrip_idem]
        congr 1
        rw [show ("__I-" : String) = "__" ++ "I-" from rfl]
        simp only [strAppend_assoc]
      · simp at hbad
    · rw [hd] at h
      simp only [Bool.not_true, Bool.false_eq_true, if_false] at h
      obtain ⟨_, hfn⟩ := uploadStageNoDots_listSearch w st m.id _ company _ _ "INVOICE" fn h
      rw [hfn, pyStrip_idem]
      congr 1
      rw [show ("__I-" : String) = "__" ++ "I-" from rfl]
      simp only [strAppend_assoc]
  · intro fn h
    rcases hd : (selectAtts (get_attachments w m)).2.isEmpty with _ | _
    · rw [hd] at h
      simp only [Bool.not_false, if_true] at h
      rcases uploadStageDots_listSearch w st m.id _ company _ _ _ _ "DOT" fn h with
        ⟨hbad, _⟩ | ⟨_, hfn⟩
      · simp at hbad
      · rw [hfn, pyStrip_idem]
        congr 1
        rw [show ("__dot__I-" : String) = "__dot__" ++ "I-" from rfl]
        simp only [strAppend_assoc]
    · rw [hd] at h
      simp only [Bool.not_true, Bool.false_eq_true, if_false] at h
      obtain ⟨hbad, _⟩ := uploadStageNoDots_listSearch w st m.id _ company _ _ "DOT" fn h
      simp at hbad
  · intro hd fn
    rw [hd]
    simp only [Bool.not_true, Bool.false_eq_true, if_false]
    constructor
    · intro h
      obtain ⟨hbad, _⟩ := uploadStageNoDots_listSearch w st m.id _ company _ _ "DOT" fn h
      simp at hbad
    · intro h
      obtain ⟨hbad, _⟩ := uploadStageNoDots_storageWrite w st m.id _ company _ _ "DOT" fn h
      simp at hbad

/-- Witness for C7: the theorem applied at the specification example, and
the synthesized name evaluated on those fields is exactly
`acme-corp__I-4521__U-U99__V-1HGCM82633A004352__D-01152024__P-NA.pdf`. -/
theorem C7_filename_synthesis_witness :
    (∃ rest,
      rest = "I-" ++ extract_invoice_number (get_attachments c7World c7Message) ++
        "__U-" ++ (extract_metadata_from_pdf c7World
          (Att.mk "Invoice_4521.pdf" "" ).data).unit ++
        "__V-" ++ (extract_metadata_from_pdf c7World
          (Att.mk "Invoice_4521.pdf" "" ).data).vin ++
        "__D-" ++ get_email_date c7World c7Message ++
        "__P-" ++ (extract_metadata_from_pdf c7World
          (Att.mk "Invoice_4521.pdf" "" ).data).plate ++ ".pdf" ∧
      (∀ fn, Effect.listSearch "INVOICE" fn ∈
          (process_single_email c7World st0 c7Message).2 →
        fn = pyStrip ("acme-corp" ++ "__" ++ rest)) ∧
      (∀ fn, Effect.listSearch "DOT" fn ∈
          (process_single_email c7World st0 c7Message).2 →
        fn = pyStrip ("acme-corp" ++ "__dot__" ++ rest)) ∧
      ((selectAtts (get_attachments c7World c7Message)).2.isEmpty = true →
        ∀ fn, Effect.listSearch "DOT" fn ∉
            (process_single_email c7World st0 c7Message).2 ∧
          Effect.storageWrite "DOT" fn ∉
            (process_single_email c7World st0 c7Message).2)) ∧
    pyStrip ("acme-corp" ++ "__" ++ ("I-" ++ "4521" ++ "__U-" ++ "U99" ++ "__V-" ++
        "1HGCM82633A004352" ++ "__D-" ++ "01152024" ++ "__P-" ++ "NA" ++ ".pdf")) =
      "acme-corp__I-4521__U-U99__V-1HGCM82633A004352__D-01152024__P-NA.pdf" :=
  ⟨C7_filename_synthesis c7World st0 c7Message "acme-corp"
      (Att.mk "Invoice_4521.pdf" "") (by decide) (by decide) (by decide),
    by decide⟩

theorem lookupRow_append_of_some (k i : String) (v n : Nat) :
    ∀ l, lookupRow l k = some n → lookupRow (l ++ [(i, v)]) k = some n := by
  intro l
  induction l with
  | nil => intro h; simp [lookupRow] at h
  | cons p ps ih =>
    intro h
    rw [lookupRow] at h
    rw [List.cons_append, lookupRow]
    by_cases hp : p.1 = k
    · rw [if_pos hp] at h ⊢
      exact h
    · rw [if_neg hp] at h ⊢
      exact ih h

theorem lookupRow_append_cases (k i : String) (v n : Nat) :
    ∀ l, lookupRow (l ++ [(i, v)]) k = some n →
      lookupRow l k = some n ∨ (lookupRow l k = none ∧ k = i ∧ n = v) := by
  intro l
  induction l with
  | nil =>
    intro h
    simp only [List.nil_append, lookupRow] at h
    by_cases hi : i = k
    · rw [if_pos hi] at h
      exact Or.inr ⟨rfl, hi.symm, by injection h with h2; exact h2.symm⟩
    · rw [if_neg hi] at h
      simp [lookupRow] at h
  | cons p ps ih =>
    intro h
    rw [List.cons_append, lookupRow] at h
    by_cases hp : p.1 = k
    · rw [if_pos hp] at h
      left
      rw [lookupRow, if_pos hp]
      exact h
    · rw [if_neg hp] at h
      rcases ih h with h2 | h2
      · left
        rw [lookupRow, if_neg hp]
        exact h2
      · right
        rw [lookupRow, if_neg hp]
        exact h2

theorem lookupRow_append_of_none (k i : String) (v : Nat)
    (hki : k ≠ i) :
    ∀ l, lookupRow l k = none → lookupRow (l ++ [(i, v)]) k = none := by
  intro l
  induction l with
  | nil =>
    intro _
    simp only [List.nil_append, lookupRow]
    rw [if_neg (fun h => hki h.symm)]
  | cons p ps ih =>
    intro h
    rw [lookupRow] at h
    rw [List.cons_append, lookupRow]
    by_cases hp : p.1 = k
    · rw [if_pos hp] at h
      simp at h
    · rw [if_neg hp] at h ⊢
      exact ih h

theorem getD_set_ne (l : List (List String)) :
    ∀ (i j : Nat) (x d : List String), i ≠ j →
      (l.set i x).getD j d = l.getD j d := by
  induction l with
  | nil => intro i j x d _; rfl
  | cons a t ih =>
    intro i j x d hij
    cases i with
    | zero =>
      cases j with
      | zero => exact absurd rfl hij
      | succ j => simp [List.getD_cons_succ]
    | succ i =>
      cases j with
      | zero => simp [List.getD_cons_zero]
      | succ j =>
        show (a :: t.set i x).getD (j + 1) d = (a :: t).getD (j + 1) d
        simp only [List.getD_cons_succ]
        exact ih i j x d (fun h => hij (by rw [h]))

theorem getD_append_left (l l2 : List (List String)) :
    ∀ (n : Nat) (d : List String), n < l.length →
      (l ++ l2).getD n d = l.getD n d := by
  induction l with
  | nil => intro n d h; simp at h
  | cons a t ih =>
    intro n d h
    cases n with
    | zero => simp [List.getD_cons_zero]
    | succ n =>
      simp only [List.cons_append, List.getD_cons_succ]
      exact ih n d (by simpa using h)

theorem is_already_congr (st st' : ProcState) (msg : String)
    (h1 : st.sheet_data = st'.sheet_data)
    (h2 : st.message_id_to_row = st'.message_id_to_row) :
    is_already_processed st msg = is_already_processed st' msg := by
  unfold is_already_processed
  rw [h1, h2]

theorem WF_congr (st st' : ProcState)
    (h1 : st.sheet_data = st'.sheet_data)
    (h2 : st.message_id_to_row = st'.message_id_to_row)
    (h : WFState st) : WFState st' := by
  unfold WFState at h ⊢
  rw [← h1, ← h2]
  exact h

theorem is_already_processed_some (st : ProcState) (msg : String) (n : Nat)
    (h : lookupRow st.message_id_to_row msg = some n) :
    is_already_processed st msg =
      if 7 ≤ (st.sheet_data.getD (n - 1) []).length then
        decide ((st.sheet_data.getD (n - 1) []).getD 6 "" = "success")
      else false := by
  unfold is_already_processed
  rw [h]

theorem is_already_processed_none (st : ProcState) (msg : String)
    (h : lookupRow st.message_id_to_row msg = none) :
    is_already_processed st msg = false := by
  unfold is_already_processed
  rw [h]

theorem gate_after_append (st : ProcState) (vals : List String)
    (id msg : String) (hne : msg ≠ id) (hwf : WFState st) :
    is_already_processed
        { st with
          sheet_data := st.sheet_data ++ [vals]
          message_id_to_row :=
            st.message_id_to_row ++ [(id, st.sheet_data.length + 1)] } msg =
      is_already_processed st msg := by
  rcases hmsg : lookupRow st.message_id_to_row msg with _ | n
  · rw [is_already_processed_none st msg hmsg]
    exact is_already_processed_none _ msg
      (lookupRow_append_of_none msg id (st.sheet_data.length + 1) hne
        st.message_id_to_row hmsg)
  · have hb := hwf.1 msg n hmsg
    rw [is_already_processed_some st msg n hmsg]
    refine Eq.trans (is_already_processed_some _ msg n
      (lookupRow_append_of_some msg id (st.sheet_data.length + 1) n
        st.message_id_to_row hmsg)) ?_
    show (if 7 ≤ ((st.sheet_data ++ [vals]).getD (n - 1) []).length then
        decide (((st.sheet_data ++ [vals]).getD (n - 1) []).getD 6 "" = "success")
      else false) = _
    rw [getD_append_left st.sheet_data [vals] (n - 1) [] hb.2]

theorem WF_after_append (st : ProcState) (vals : List String) (id : String)
    (hwf : WFState st) :
    WFState
      { st with
        sheet_data := st.sheet_data ++ [vals]
        message_id_to_row :=
          st.message_id_to_row ++ [(id, st.sheet_data.length + 1)] } := by
  obtain ⟨hbounds, hinj⟩ := hwf
  constructor
  · intro k n hk
    show 1 ≤ n ∧ n - 1 < (st.sheet_data ++ [vals]).length
    rw [List.length_append]
    rcases lookupRow_append_cases k id (st.sheet_data.length + 1) n
      st.message_id_to_row hk with hk2 | ⟨_, _, hv⟩
    · have := hbounds k n hk2
      simp only [List.length_cons, List.length_nil]
      omega
    · subst hv
      simp only [List.length_cons, List.length_nil]
      omega
  · intro k1 k2 n hk1 hk2
    rcases lookupRow_append_cases k1 id (st.sheet_data.length + 1) n
      st.message_id_to_row hk1 with ha | ⟨_, ha2, hav⟩
    · rcases lookupRow_append_cases k2 id (st.sheet_data.length + 1) n
        st.message_id_to_row hk2 with hb | ⟨_, hb2, hbv⟩
      · exact hinj k1 k2 n ha hb
      · subst hbv
        have := (hbounds k1 _ ha).2
        omega
    · rcases lookupRow_append_cases k2 id (st.sheet_data.length + 1) n
        st.message_id_to_row hk2 with hb | ⟨_, hb2, hbv⟩
      · subst hav
        have := (hbounds k2 _ hb).2
        omega
      · rw [ha2, hb2]

theorem gate_after_set (st : ProcState) (vals : List String)
    (id msg : String) (rn : Nat) (hne : msg ≠ id)
    (hrn : lookupRow st.message_id_to_row id = some rn) (hwf : WFState st) :
    is_already_processed
        { st with sheet_data := st.sheet_data.set (rn - 1) vals } msg =
      is_already_processed st msg := by
  rcases hmsg : lookupRow st.message_id_to_row msg with _ | n
  · rw [is_already_processed_none st msg hmsg]
    exact is_already_processed_none _ msg hmsg
  · have hnr : n ≠ rn := by
      intro he
      subst he
      exact hne (hwf.2 msg id n hmsg hrn)
    have hb1 := hwf.1 msg n hmsg
    have hb2 := hwf.1 id rn hrn
    rw [is_already_processed_some st msg n hmsg]
    refine Eq.trans (is_already_processed_some _ msg n hmsg) ?_
    show (if 7 ≤ ((st.sheet_data.set (rn - 1) vals).getD (n - 1) []).length then
        decide (((st.sheet_data.set (rn - 1) vals).getD (n - 1) []).getD 6 ""
          = "success")
      else false) = _
    rw [getD_set_ne st.sheet_data (rn - 1) (n - 1) vals [] (by omega)]

theorem WF_after_set (st : ProcState) (vals : List String) (j : Nat)
    (hwf : WFState st) :
    WFState { st with sheet_data := st.sheet_data.set j vals } := by
  obtain ⟨hbounds, hinj⟩ := hwf
  constructor
  · intro k n hk
    have := hbounds k n hk
    show 1 ≤ n ∧ n - 1 < (st.sheet_data.set j vals).length
    rw [List.length_set]
    exact this
  · exact hinj

theorem log_to_sheet_preserves (w : World) (st : ProcState)
    (message_id subject company invoice_file dot_file status error msg : String)
    (hne : msg ≠ message_id) (hwf : WFState st) :
    is_already_processed
        (log_to_sheet w st message_id subject company invoice_file dot_file
          status error).1 msg = is_already_processed st msg ∧
      WFState (log_to_sheet w st message_id subject company invoice_file
        dot_file status error).1 := by
  unfold log_to_sheet
  rcases hid : lookupRow st.message_id_to_row message_id with _ | rn
  · exact ⟨gate_after_append st _ message_id msg hne hwf,
      WF_after_append st _ message_id hwf⟩
  · exact ⟨gate_after_set st _ message_id msg rn hne hid hwf,
      WF_after_set st _ (rn - 1) hwf⟩

theorem counters_congr (st : ProcState) (pc fc sc cc : Nat) (msg : String) :
    is_already_processed
        { st with
          processed_count := pc
          failed_count := fc
          skipped_count := sc
          cleaned_count := cc } msg =
      is_already_processed st msg := rfl

theorem uploadStageDots_preserves (w : World) (st : ProcState)
    (i subject company invFn dotFn invData merged msg : String)
    (hne : msg ≠ i) (hwf : WFState st) :
    is_already_processed
        (uploadStageDots w st i subject company invFn dotFn invData merged).1
        msg = is_already_processed st msg ∧
      WFState (uploadStageDots w st i subject company invFn dotFn
        invData merged).1 := by
  unfold uploadStageDots
  simp only []
  split
  · exact log_to_sheet_preserves w st i subject company invFn dotFn
      "success" "" msg hne hwf
  · exact log_to_sheet_preserves w st i subject company invFn dotFn
      "failed" "Upload failed" msg hne hwf

theorem uploadStageNoDots_preserves (w : World) (st : ProcState)
    (i subject company invFn invData msg : String)
    (hne : msg ≠ i) (hwf : WFState st) :
    is_already_processed
        (uploadStageNoDots w st i subject company invFn invData).1 msg =
      is_already_processed st msg ∧
      WFState (uploadStageNoDots w st i subject company invFn invData).1 := by
  unfold uploadStageNoDots
  simp only []
  split
  · exact log_to_sheet_preserves w st i subject company invFn ""
      "success" "" msg hne hwf
  · exact log_to_sheet_preserves w st i subject company invFn ""
      "failed" "Upload failed" msg hne hwf

theorem process_single_email_preserves (w : World) (st : ProcState)
    (m : Message) (msg : String) (hne : msg ≠ m.id) (hwf : WFState st) :
    is_already_processed (process_single_email w st m).1 msg =
      is_already_processed st msg ∧
      WFState (process_single_email w st m).1 := by
  unfold process_single_email
  rcases hco : extract_company_name w.companies m with _ | company
  · simp only [hco]
    exact log_to_sheet_preserves w st m.id _ "" "" "" "failed" _ msg hne hwf
  · simp only [hco]
    rcases hA : (get_attachments w m).isEmpty with _ | _
    · simp only [hA, Bool.false_eq_true, if_false]
      rcases hsel : (selectAtts (get_attachments w m)).1 with _ | inv
      · simp only [hsel]
        exact log_to_sheet_preserves w st m.id _ company "" "" "failed" _
          msg hne hwf
      · simp only [hsel]
        rcases hd : (selectAtts (get_attachments w m)).2.isEmpty with _ | _
        · simp only [hd, Bool.not_false, if_true]
          exact uploadStageDots_preserves w st m.id _ company _ _ _ _
            msg hne hwf
        · simp only [hd, Bool.not_true, Bool.false_eq_true, if_false]
          exact uploadStageNoDots_preserves w st m.id _ company _ _
            msg hne hwf
    · simp only [hA, if_true]
      exact log_to_sheet_preserves w st m.id _ company "" "" "failed" _
        msg hne hwf

theorem inboxStep_preserves (w : World) (st : ProcState) (i msg : String)
    (hw : (w.getMessage i).id = i) (hne : msg ≠ i) (hwf : WFState st) :
    is_already_processed (inboxStep w st i).1 msg =
      is_already_processed st msg ∧ WFState (inboxStep w st i).1 := by
  unfold inboxStep
  rcases hg : is_already_processed st i with _ | _
  · simp only [hg, Bool.false_eq_true, if_false]
    rcases hv : (validate_email (w.getMessage i)).action
    · simp only []
      exact log_to_sheet_preserves w st i _ "" "" "" "failed" _ msg hne hwf
    · simp only []
      exact log_to_sheet_preserves w st i _ "" "" "" "failed" _ msg hne hwf
    · exact ⟨rfl, hwf⟩
    · have := process_single_email_preserves w st (w.getMessage i) msg
        (by rw [hw]; exact hne) hwf
      exact this
  · simp only [hg, if_true]
    exact ⟨rfl, hwf⟩

theorem effTag_upload (w : World) (d f b : String) :
    ∀ e ∈ (upload_to_supabase w d f b).2, effTag e = none := by
  intro e he
  rcases mem_upload_to_supabase_effects w d f b e he with h | h <;>
    (subst h; rfl)

theorem effTag_sorted (w : World) (i : String) :
    ∀ e ∈ (move_to_sorted_label w i).2, effTag e = some i := by
  intro e he
  obtain ⟨lid, hl⟩ := mem_move_to_sorted_label w i e he
  subst hl
  rfl

theorem effTag_log (w : World) (st : ProcState)
    (message_id subject company invoice_file dot_file status error : String) :
    ∀ e ∈ (log_to_sheet w st message_id subject company invoice_file dot_file
        status error).2, effTag e = some message_id := by
  intro e he
  rw [log_to_sheet_snd] at he
  have := List.mem_singleton.mp he
  subst this
  rfl

theorem effTag_uploadStageDots (w : World) (st : ProcState)
    (i subject company invFn dotFn invData merged : String) :
    ∀ e ∈ (uploadStageDots w st i subject company invFn dotFn
        invData merged).2, effTag e = none ∨ effTag e = some i := by
  intro e he
  unfold uploadStageDots at he
  simp only [] at he
  split at he
  · rcases List.mem_append.mp he with he | he
    · rcases List.mem_append.mp he with he | he
      · rcases List.mem_append.mp he with he | he
        · exact Or.inl (effTag_upload w invData invFn "INVOICE" e he)
        · exact Or.inl (effTag_upload w merged dotFn "DOT" e he)
      · exact Or.inr (effTag_sorted w i e he)
    · exact Or.inr (effTag_log w st i subject company invFn dotFn
        "success" "" e he)
  · rcases List.mem_append.mp he with he | he
    · rcases List.mem_append.mp he with he | he
      · exact Or.inl (effTag_upload w invData invFn "INVOICE" e he)
      · exact Or.inl (effTag_upload w merged dotFn "DOT" e he)
    · exact Or.inr (effTag_log w st i subject company invFn dotFn
        "failed" "Upload failed" e he)

theorem effTag_uploadStageNoDots (w : World) (st : ProcState)
    (i subject company invFn invData : String) :
    ∀ e ∈ (uploadStageNoDots w st i subject company invFn invData).2,
      effTag e = none ∨ effTag e = some i := by
  intro e he
  unfold uploadStageNoDots at he
  simp only [] at he
  split at he
  · rcases List.mem_append.mp he with he | he
    · rcases List.mem_append.mp he with he | he
      · exact Or.inl (effTag_upload w invData invFn "INVOICE" e he)
      · exact Or.inr (effTag_sorted w i e he)
    · exact Or.inr (effTag_log w st i subject company invFn "" "success" "" e he)
  · rcases List.mem_append.mp he with he | he
    · exact Or.inl (effTag_upload w invData invFn "INVOICE" e he)
    · exact Or.inr (effTag_log w st i subject company invFn ""
        "failed" "Upload failed" e he)

theorem effTag_process_single_email (w : World) (st : ProcState) (m : Message) :
    ∀ e ∈ (process_single_email w st m).2,
      effTag e = none ∨ effTag e = some m.id := by
  intro e he
  unfold process_single_email at he
  rcases hco : extract_company_name w.companies m with _ | company <;>
    simp only [hco] at he
  · exact Or.inr (effTag_log w st m.id _ "" "" "" "failed" _ e he)
  · rcases hA : (get_attachments w m).isEmpty with _ | _ <;>
      simp only [hA, Bool.false_eq_true, if_false, if_true] at he
    · rcases hsel : (selectAtts (get_attachments w m)).1 with _ | inv <;>
        simp only [hsel] at he
      · exact Or.inr (effTag_log w st m.id _ company "" "" "failed" _ e he)
      · rcases hd : (selectAtts (get_attachments w m)).2.isEmpty with _ | _ <;>
          simp only [hd, Bool.not_false, Bool.not_true, Bool.false_eq_true,
            if_false, if_true] at he
        · exact effTag_uploadStageDots w st m.id _ company _ _ _ _ e he
        · exact effTag_uploadStageNoDots w st m.id _ company _ _ e he
    · exact Or.inr (effTag_log w st m.id _ company "" "" "failed" _ e he)

theorem effTag_move_reply (w : World) (i : String) (labels : List String) :
    ∀ e ∈ (move_reply_to_original_label w i labels).2.2,
      effTag e = some i := by
  intro e he
  unfold move_reply_to_original_label at he
  simp only [] at he
  split at he
  · split at he <;> (simp at he; subst he; rfl)
  · simp at he
    subst he
    rfl

theorem effTag_move_other (w : World) (i : String) :
    ∀ e ∈ (move_to_other_label w i).2, effTag e = some i := by
  intro e he
  unfold move_to_other_label at he
  rcases ho : w.otherLabelId with _ | lid <;> rw [ho] at he
  · simp at he
  · simp at he
    subst he
    rfl

theorem inboxStep_tags (w : World) (st : ProcState) (i : String)
    (hw : (w.getMessage i).id = i) :
    ∀ e ∈ (inboxStep w st i).2, effTag e = none ∨ effTag e = some i := by
  intro e he
  unfold inboxStep at he
  rcases hg : is_already_processed st i with _ | _ <;>
    simp only [hg, Bool.false_eq_true, if_false, if_true] at he
  · rcases hv : (validate_email (w.getMessage i)).action <;>
      simp only [hv] at he
    · rcases List.mem_cons.mp he with he | he
      · subst he; exact Or.inr rfl
      · rcases List.mem_append.mp he with he | he
        · exact Or.inr (effTag_move_reply w i _ e he)
        · exact Or.inr (effTag_log w st i _ "" "" "" "failed" _ e he)
    · rcases List.mem_cons.mp he with he | he
      · subst he; exact Or.inr rfl
      · rcases List.mem_append.mp he with he | he
        · exact Or.inr (effTag_move_other w i e he)
        · exact Or.inr (effTag_log w st i _ "" "" "" "failed" _ e he)
    · have := List.mem_singleton.mp he
      subst this
      exact Or.inr rfl
    · rcases List.mem_cons.mp he with he | he
      · subst he; exact Or.inr rfl
      · rcases effTag_process_single_email w st (w.getMessage i) e he with
          h | h
        · exact Or.inl h
        · rw [hw] at h
          exact Or.inr h
  · simp at he

theorem inboxStep_already (w : World) (st : ProcState) (msg : String)
    (h : is_already_processed st msg = true) :
    inboxStep w st msg =
      ({ st with skipped_count := st.skipped_count + 1 }, []) := by
  unfold inboxStep
  rw [h]
  rfl

theorem processInbox_no_touch (w : World) (msg : String)
    (hw : ∀ i, (w.getMessage i).id = i) :
    ∀ (ids : List String) (st : ProcState), WFState st →
      is_already_processed st msg = true →
      ∀ e ∈ (process_inbox w ids st).2, effTag e ≠ some msg := by
  intro ids
  induction ids with
  | nil =>
    intro st _ _ e he
    simp [process_inbox] at he
  | cons i rest ih =>
    intro st hwf hgate e he
    rw [process_inbox] at he
    simp only [] at he
    by_cases hi : msg = i
    · subst hi
      rw [inboxStep_already w st msg hgate] at he
      simp only [List.nil_append] at he
      exact ih { st with skipped_count := st.skipped_count + 1 }
        hwf hgate e he
    · rcases List.mem_append.mp he with he | he
      · intro htag
        rcases inboxStep_tags w st i (hw i) e he with h | h
        · rw [htag] at h
          simp at h
        · rw [htag] at h
          injection h with h2
          exact hi h2
      · obtain ⟨hpres, hwf2⟩ := inboxStep_preserves w st i msg (hw i) hi hwf
        exact ih (inboxStep w st i).1 hwf2 (by rw [hpres]; exact hgate) e he

/-- C1.  A message whose ledger record reads `success` at the start of the
run is skipped entirely: its own loop iteration performs no message fetch,
no upload attempt, no mailbox label mutation and no ledger write (the trace
is empty and only the skip counter moves), and the whole run over any
listing produces no fetch, label mutation or ledger write keyed by that
message — so a second run against an unchanged ledger and mailbox never
re-uploads or re-labels it. -/
theorem C1_success_is_skipped (w : World) (st : ProcState)
    (ids : List String) (msg : String) (n : Nat)
    (hw : ∀ i, (w.getMessage i).id = i)
    (hwf : WFState st)
    (hmap : lookupRow st.message_id_to_row msg = some n)
    (hlen : 7 ≤ (st.sheet_data.getD (n - 1) []).length)
    (hsucc : (st.sheet_data.getD (n - 1) []).getD 6 "" = "success") :
    inboxStep w st msg =
      ({ st with skipped_count := st.skipped_count + 1 }, []) ∧
    ∀ e ∈ (process_inbox w ids st).2, effTag e ≠ some msg := by
  have hgate : is_already_processed st msg = true := by
    rw [is_already_processed_some st msg n hmap, if_pos hlen, hsucc]
    decide
  exact ⟨inboxStep_already w st msg hgate,
    processInbox_no_touch w msg hw ids st hwf hgate⟩

theorem c1State_WF : WFState c1State := by
  have hmp : c1State.message_id_to_row = [("m1", 2)] := rfl
  constructor
  · intro k n h
    rw [hmp, lookupRow] at h
    by_cases h1 : ("m1" : String) = k
    · rw [if_pos h1] at h
      injection h with h2
      subst h2
      exact ⟨by decide, by decide⟩
    · rw [if_neg h1] at h
      exact absurd h (by rw [lookupRow]; simp)
  · intro k1 k2 n ha hb
    rw [hmp, lookupRow] at ha hb
    by_cases h1 : ("m1" : String) = k1
    · by_cases h2 : ("m1" : String) = k2
      · rw [← h1, ← h2]
      · rw [if_neg h2, lookupRow] at hb
        exact absurd hb (by simp)
    · rw [if_neg h1, lookupRow] at ha
      exact absurd ha (by simp)

/-- Witness for C1: with `m1` recorded `success`, its step is a pure skip
with an empty trace, and a run over `[m1, mx]` contains no effect keyed by
`m1`. -/
theorem C1_success_is_skipped_witness :
    (inboxStep c9World c1State "m1" =
      ({ c1State with skipped_count := c1State.skipped_count + 1 }, [])) ∧
    ∀ e ∈ (process_inbox c9World ["m1", "mx"] c1State).2,
      effTag e ≠ some "m1" :=
  C1_success_is_skipped c9World c1State ["m1", "mx"] "m1" 2
    (fun i => rfl) c1State_WF (by decide) (by decide) (by decide)
